import Mathlib

/-!
LDC: ABI rewrite slots, label scopes and naked-function code generation.

A shallow embedding of `ir/irfunction.cpp` and `gen/naked.cpp`.

* C++ strings are `String`; `std::endl` is the newline character.
* `std::vector` is a `List` whose back is the last element; `std::stack` is a
  `List` whose top is the head.
* A routine that can stop at an `assert`, at `fatal()` or by breaking the
  precondition of a standard container returns an `Outcome`.
-/

namespace LDC

/-! ## Outcomes -/

/-- How a compiler routine ends. -/
inductive Outcome (α : Type) where
  /-- Normal return. -/
  | ok (a : α)
  /-- An `assert(...)` fired; `msg` is the asserted text. -/
  | assertFail (msg : String)
  /-- Compilation stopped by `fatal()`, after the listed diagnostics. -/
  | fatal (diags : List String)
  /-- A standard container was used outside its precondition (`pop_back` on an
  empty vector, `top` on an empty stack): the C++ standard leaves the
  behaviour undefined and the code does not check. -/
  | undefined
deriving DecidableEq, Repr

/-- Sequencing of outcomes: the continuation runs only after a normal return. -/
def Outcome.bind {α β : Type} : Outcome α → (α → Outcome β) → Outcome β
  | .ok a, k => k a
  | .assertFail m, _ => .assertFail m
  | .fatal d, _ => .fatal d
  | .undefined, _ => .undefined

/-- The value of a normal return, if any. -/
def Outcome.toOption {α : Type} : Outcome α → Option α
  | .ok a => some a
  | _ => none

/-! ## `IrFunction`: label scopes (`ir/irfunction.cpp`, lines 62-110) -/

/-- Modelled from the spec: the class `IrFunction` is declared in
`ir/irfunction.h`, which is not among the sources. The fields kept are the
ones the label-scope routines and the lifecycle flags use: `labelScopes`
(a `std::vector<std::string>`) and `nextUnique` (a `std::stack` of counters,
top at the head). The counters are natural numbers: the arithmetic of the
machine `int` agrees with them below `2^31` pushes on one level. The pointer
members the constructor sets to `NULL` are read by none of the routines
below and are left out. -/
structure IrFunction where
  labelScopes : List String
  nextUnique : List Nat
  queued : Bool
  defined : Bool
deriving DecidableEq, Repr

/-- Embeds `IrFunction::IrFunction(fd)`: asserts that the base type of the declaration
is a function type (`tyIsTfunction`), clears the flags and pushes the
top-level counter `0`. -/
def IrFunction.construct (tyIsTfunction : Bool) : Outcome IrFunction :=
  if tyIsTfunction then
    .ok { labelScopes := [], nextUnique := [0], queued := false, defined := false }
  else
    .assertFail "t->ty == Tfunction"

/-- Embeds `IrFunction::getScopedLabelName(ident)`. -/
def IrFunction.getScopedLabelName (self : IrFunction) (ident : String) : String :=
  if self.labelScopes.isEmpty then
    ident
  else
    self.labelScopes.foldl (fun result scope => result ++ (scope ++ "_")) "__" ++ ident

/-- Embeds `IrFunction::pushUniqueLabelScope(name)`:
`uniquename << name << nextUnique.top()++; nextUnique.push(0);
labelScopes.push_back(uniquename.str());`. -/
def IrFunction.pushUniqueLabelScope (self : IrFunction) (name : String) :
    Outcome IrFunction :=
  match self.nextUnique with
  | [] => .undefined
  | top :: rest =>
    .ok { self with
          nextUnique := 0 :: (top + 1) :: rest
          labelScopes := self.labelScopes ++ [name ++ toString top] }

/-- Embeds `IrFunction::popLabelScope()`: `labelScopes.pop_back(); nextUnique.pop();`
with no check of its own. -/
def IrFunction.popLabelScope (self : IrFunction) : Outcome IrFunction :=
  if self.labelScopes.isEmpty then
    .undefined
  else
    match self.nextUnique with
    | [] => .undefined
    | _ :: rest =>
      .ok { self with labelScopes := self.labelScopes.dropLast, nextUnique := rest }

/-- The state the constructor leaves behind. -/
def IrFunction.fresh : IrFunction :=
  { labelScopes := [], nextUnique := [0], queued := false, defined := false }

/-- States reachable from construction by `pushUniqueLabelScope` and
`popLabelScope` calls that return. -/
inductive IrFunction.Reachable : IrFunction → Prop where
  | construct : IrFunction.Reachable IrFunction.fresh
  | push {s t : IrFunction} (name : String) :
      IrFunction.Reachable s → s.pushUniqueLabelScope name = .ok t →
      IrFunction.Reachable t
  | pop {s t : IrFunction} :
      IrFunction.Reachable s → s.popLabelScope = .ok t → IrFunction.Reachable t

/-! ## Sequences of label-scope calls -/

/-- A call on the label-scope interface of an `IrFunction`. -/
inductive ScopeOp where
  | push (name : String)
  | pop
deriving DecidableEq, Repr

/-- Runs the calls in order from state `s` and returns the scope instances
opened on the way: for each `pushUniqueLabelScope`, the state right after it.
A call that does not return ends the run. -/
def scopeInstances : List ScopeOp → IrFunction → Outcome (List IrFunction)
  | [], _ => .ok []
  | .push name :: ops, s =>
    (s.pushUniqueLabelScope name).bind fun t =>
      (scopeInstances ops t).bind fun rest => .ok (t :: rest)
  | .pop :: ops, s => s.popLabelScope.bind fun t => scopeInstances ops t

/-- A scope name without `_` that does not end in a decimal digit. -/
def cleanName (name : String) : Bool :=
  !(name.data.contains '_') && name.data.getLast?.all (fun c => !c.isDigit)

/-- The scope names of a stack of levels, outermost first; a level is the
counter of the enclosing scope paired with the scope name opened under it,
innermost level first. -/
def pathOf (L : List (Nat × String)) : List String := (L.map Prod.snd).reverse

/-- No path in `U` continues `P` with a name whose counter is `c` or more. -/
def BelowCounter (U : List (List String)) (P : List String) (c : Nat) : Prop :=
  ∀ Q ∈ U, ∀ (n : String) (d : Nat) (rest : List String), cleanName n = true →
    Q = P ++ (n ++ toString d) :: rest → d < c

/-- The counters bound every path used so far: at each level of the open
scopes, the paths in `U` that branch off there, and the open scope itself,
carry a counter below the level's. -/
def CountersBound (U : List (List String)) : Nat → List (Nat × String) → Prop
  | c, [] => BelowCounter U [] c
  | c, (c1, e) :: L =>
    BelowCounter U (pathOf ((c1, e) :: L)) c
    ∧ (∀ (n : String) (d : Nat), cleanName n = true → e = n ++ toString d → d < c1)
    ∧ CountersBound U c1 L

/-- The number a list of decimal digits stands for, most significant first. -/
def digitsValue (acc : Nat) (l : List Char) : Nat :=
  l.foldl (fun a c => 10 * a + (c.toNat - 48)) acc

/-! ## `IrFuncTy`: ABI rewrites (`ir/irfunction.cpp`, lines 13-56) -/

/-- Modelled from the spec: the rewrite strategy `ABIRewrite` is declared in
`gen/abi.h`, which is not among the sources; it is the capability pair
`put` / `get` on values, each also given the semantic type. `DType` is the
type of semantic (front-end) types and `Val` the type of IR values. -/
structure ABIRewrite (DType Val : Type) where
  put : DType → Val → Val
  get : DType → Val → Val

/-- Modelled from the spec: `IrFuncTyArg` is declared in `ir/irfunction.h`,
which is not among the sources; the fields are the ones its constructor in
`irfunction.cpp` assigns. `rewrite` is a pointer that may be `NULL`
(`none`). `LType` is the type of lowered (IR) types. -/
structure IrFuncTyArg (DType LType Val : Type) where
  type : DType
  ltype : LType
  attrs : Nat
  byref : Bool
  rewrite : Option (ABIRewrite DType Val)

/-- Modelled from the spec: `IrFuncTy` is declared in `ir/irfunction.h`, which
is not among the sources: one return slot, the ordered argument slots and the
indirect-return marker `arg_sret` that `putRet` / `getRet` test. -/
structure IrFuncTy (DType LType Val : Type) where
  ret : IrFuncTyArg DType LType Val
  args : List (IrFuncTyArg DType LType Val)
  arg_sret : Bool

/-- Embeds `IrFuncTy::putRet(dty, val)`. -/
def IrFuncTy.putRet {DType LType Val : Type} (self : IrFuncTy DType LType Val)
    (dty : DType) (val : Val) : Outcome Val :=
  if self.arg_sret then
    .assertFail "!arg_sret"
  else
    match self.ret.rewrite with
    | some rewrite => .ok (rewrite.put dty val)
    | none => .ok val

/-- Embeds `IrFuncTy::getRet(dty, val)`. -/
def IrFuncTy.getRet {DType LType Val : Type} (self : IrFuncTy DType LType Val)
    (dty : DType) (val : Val) : Outcome Val :=
  if self.arg_sret then
    .assertFail "!arg_sret"
  else
    match self.ret.rewrite with
    | some rewrite => .ok (rewrite.get dty val)
    | none => .ok val

/-- Embeds `IrFuncTy::putParam(dty, idx, val)`; `idx` is a C++ `int`. -/
def IrFuncTy.putParam {DType LType Val : Type} (self : IrFuncTy DType LType Val)
    (dty : DType) (idx : Int) (val : Val) : Outcome Val :=
  if h : 0 ≤ idx ∧ idx < (self.args.length : Int) then
    match (self.args.get ⟨idx.toNat, by omega⟩).rewrite with
    | some rewrite => .ok (rewrite.put dty val)
    | none => .ok val
  else
    .assertFail "idx >= 0 && idx < args.size() && \"invalid putParam\""

/-- Embeds `IrFuncTy::getParam(dty, idx, val)`; `idx` is a C++ `int`. -/
def IrFuncTy.getParam {DType LType Val : Type} (self : IrFuncTy DType LType Val)
    (dty : DType) (idx : Int) (val : Val) : Outcome Val :=
  if h : 0 ≤ idx ∧ idx < (self.args.length : Int) then
    match (self.args.get ⟨idx.toNat, by omega⟩).rewrite with
    | some rewrite => .ok (rewrite.get dty val)
    | none => .ok val
  else
    .assertFail "idx >= 0 && idx < args.size() && \"invalid getParam\""

/-- The outcome is an assertion failure. -/
def Outcome.isAssertFail {α : Type} : Outcome α → Bool
  | .assertFail _ => true
  | _ => false

/-! ## Naked code generation: statements (`gen/naked.cpp`, lines 29-104) -/

/-- Modelled from the spec: the static storage class `STCstatic`, declared in
the front end (`declaration.h`, not among the sources). The bit value is the
front end's; no theorem depends on it. -/
def STCstatic : Nat := 1

/-- Modelled from the spec: the manifest-constant storage class `STCmanifest`,
declared in the front end (`declaration.h`, not among the sources). The bit
value is the front end's; no theorem depends on it. -/
def STCmanifest : Nat := 0x800000

/-- Modelled from the spec: the declared entity of a declaration expression.
The front-end classes are not among the sources; a symbol is a
`VarDeclaration` (with its `storage_class` bits), a `FuncDeclaration` (with
the answer of `isStatic()`), an `EnumDeclaration`, or a symbol of any other
class. `toChars` is the printed name. -/
inductive Dsymbol where
  | VarDeclaration (storage_class : Nat) (toChars : String)
  | FuncDeclaration (isStatic : Bool) (toChars : String)
  | EnumDeclaration (toChars : String)
  | other (toChars : String)
deriving DecidableEq, Repr

/-- Modelled from the spec: an expression is a `DeclarationExp`
(`op == TOKdeclaration`) carrying its declaration, or an expression with any
other operator, such as an arithmetic one. -/
inductive Expression where
  | DeclarationExp (declaration : Dsymbol)
  | other (toChars : String)
deriving DecidableEq, Repr

/-- Modelled from the spec: the statement classes of the front end.
`CompoundStatement`, `ExpStatement` and `LabelStatement` override `toNakedIR`
in `naked.cpp`; `other` stands for a statement of a class that inherits
`Statement::toNakedIR`. `none` is a `NULL` pointer. -/
inductive Statement where
  | CompoundStatement (statements : Option (List (Option Statement)))
  | ExpStatement (exp : Expression)
  | LabelStatement (ident : String) (statement : Option Statement)
  | other (toChars : String)

/-- Modelled from the spec: the process-wide code-generation state
(`IRState` and `global`, declared outside the sources).
* `nakedAsm`: the naked-assembly text buffer;
* `functions`: the active-function stack, each entry given by the mangled
  name of its declaration (back = last);
* `moduleAsm`: the strings handed to the module's `appendModuleInlineAsm`,
  in call order;
* `errors`: the diagnostics reported so far (`global.errors` is its length);
* `codegenned`: the declarations handed to ordinary declaration codegen
  (`Declaration::codegen`, an external collaborator), in call order. -/
structure IRState where
  nakedAsm : String
  functions : List String
  moduleAsm : List String
  errors : List String
  codegenned : List Dsymbol
deriving DecidableEq, Repr

/-- Embeds `error(msg)`: reports a diagnostic. -/
def IRState.error (p : IRState) (msg : String) : IRState :=
  { p with errors := p.errors ++ [msg] }

/-- Embeds `declaration->codegen(p)`: ordinary declaration codegen is entered. -/
def IRState.codegen (p : IRState) (d : Dsymbol) : IRState :=
  { p with codegenned := p.codegenned ++ [d] }

/-- Modelled from the spec: `printLabelName(target, func_mangle, label_name)`
is defined outside the sources; it appends the function's mangled name, `_`
and the label to the target stream. -/
def printLabelName (target func_mangle label_name : String) : String :=
  target ++ func_mangle ++ "_" ++ label_name

/-- Embeds `Statement::toNakedIR(p)`, the default. -/
def Statement.toNakedIR_default (p : IRState) : IRState :=
  p.error "statement not allowed in naked function"

/-- Embeds `ExpStatement::toNakedIR(p)`, for the statement's expression `exp`. -/
def ExpStatement.toNakedIR (exp : Expression) (p : IRState) : IRState :=
  match exp with
  | .other _ => Statement.toNakedIR_default p
  | .DeclarationExp declaration =>
    match declaration with
    | .VarDeclaration storage_class toChars =>
      if storage_class &&& (STCstatic ||| STCmanifest) = 0 then
        p.error ("non-static variable \x27" ++ toChars
                  ++ "\x27 not allowed in naked function")
      else
        p.codegen declaration
    | .FuncDeclaration isStatic toChars =>
      if !isStatic then
        p.error ("non-static nested function \x27" ++ toChars
                  ++ "\x27 not allowed in naked function")
      else
        p.codegen declaration
    | .EnumDeclaration _ => p.codegen declaration
    | .other _ => Statement.toNakedIR_default p

mutual
/-- The `toNakedIR(p)` of the statement's class: `CompoundStatement`,
`ExpStatement`, `LabelStatement`, or the inherited `Statement::toNakedIR`.
`p->func()` needs a function on the active-function stack. -/
def Statement.toNakedIR : Statement → IRState → Outcome IRState
  | .CompoundStatement none, p => .ok p
  | .CompoundStatement (some statements), p => Statement.toNakedIR_each statements p
  | .ExpStatement exp, p => .ok (ExpStatement.toNakedIR exp p)
  | .LabelStatement ident statement, p =>
    match p.functions.getLast? with
    | none => .assertFail "!functions.empty()"
    | some mangle =>
      match statement with
      | none => .ok { p with nakedAsm := printLabelName p.nakedAsm mangle ident ++ ":" }
      | some body =>
        Statement.toNakedIR body
          { p with nakedAsm := printLabelName p.nakedAsm mangle ident ++ ":" }
  | .other _, p => .ok (Statement.toNakedIR_default p)
/-- The loop of `CompoundStatement::toNakedIR` over `statements->data`. -/
def Statement.toNakedIR_each : List (Option Statement) → IRState → Outcome IRState
  | [], p => .ok p
  | none :: rest, p => Statement.toNakedIR_each rest p
  | some s :: rest, p => (Statement.toNakedIR s p).bind (Statement.toNakedIR_each rest)
end

mutual
/-- A tree built only from `CompoundStatement` and `LabelStatement`. -/
def Statement.onlyCompoundLabel : Statement → Bool
  | .CompoundStatement none => true
  | .CompoundStatement (some statements) => Statement.onlyCompoundLabel_each statements
  | .ExpStatement _ => false
  | .LabelStatement _ none => true
  | .LabelStatement _ (some body) => Statement.onlyCompoundLabel body
  | .other _ => false
/-- Every non-null child is built only from compound and label statements. -/
def Statement.onlyCompoundLabel_each : List (Option Statement) → Bool
  | [] => true
  | none :: rest => Statement.onlyCompoundLabel_each rest
  | some s :: rest => Statement.onlyCompoundLabel s && Statement.onlyCompoundLabel_each rest
end

/-- The statement `s` is reached by the traversal of `root` through compound
children and label bodies. -/
inductive Statement.Reaches : Statement → Statement → Prop where
  | here (s : Statement) : Statement.Reaches s s
  | child {statements : List (Option Statement)} {c s : Statement} :
      some c ∈ statements → Statement.Reaches c s →
      Statement.Reaches (.CompoundStatement (some statements)) s
  | body {ident : String} {b s : Statement} :
      Statement.Reaches b s → Statement.Reaches (.LabelStatement ident (some b)) s

/-- Not a compound, not a label and not a declaration-expression statement. -/
def Statement.notWhitelisted : Statement → Bool
  | .ExpStatement (.other _) => true
  | .other _ => true
  | _ => false

/-- The text `sub` occurs in `s`. -/
def containsText (s sub : String) : Prop := sub.data <:+: s.data

/-- The entities a naked function may declare: a variable with the static or
the manifest storage class, a static function, an enum. -/
def Dsymbol.allowedInNaked : Dsymbol → Bool
  | .VarDeclaration storage_class _ =>
    (storage_class &&& STCstatic != 0) || (storage_class &&& STCmanifest != 0)
  | .FuncDeclaration isStatic _ => isStatic
  | .EnumDeclaration _ => true
  | .other _ => false

/-! ## Naked code generation: the driver (`gen/naked.cpp`, lines 108-212) -/

/-- The operating systems of LLVM's `Triple::OSType` that the driver tells
apart, and `UnknownOS` for the rest. -/
inductive OSType where
  | Darwin
  | MacOSX
  | Win32
  | MinGW32
  | Cygwin
  | Linux
  | FreeBSD
  | Solaris
  | UnknownOS
deriving DecidableEq, Repr

/-- The architectures of LLVM's `Triple::ArchType` that code generation tells
apart, and `UnknownArch` for the rest. -/
inductive ArchType where
  | x86
  | x86_64
  | arm
  | ppc
  | ppc64
  | mips
  | UnknownArch
deriving DecidableEq, Repr

/-- The target triple `global.params.targetTriple`. -/
structure Triple where
  os : OSType
  arch : ArchType
deriving DecidableEq, Repr

/-- LLVM's `Triple::isOSWindows()`: the OS is Win32, Cygwin or MinGW32. -/
def Triple.isOSWindows (t : Triple) : Bool :=
  t.os == .Win32 || t.os == .Cygwin || t.os == .MinGW32

/-- Modelled from the spec: what the driver reads of the function declaration
`fd` (the class is declared in the front end, not among the sources): the
mangled name, whether `DtoIsTemplateInstance(fd)` holds, whether
`fd->ir.irFunc` is set, and the body. -/
structure FuncDeclaration where
  mangle : String
  isTemplateInstance : Bool
  hasIrFunc : Bool
  fbody : Statement

/-- Embeds `DtoDefineNakedFunction(fd)` on the state `gIR`, for the target
`targetTriple`. -/
def DtoDefineNakedFunction (targetTriple : Triple) (fd : FuncDeclaration)
    (gIR : IRState) : Outcome IRState :=
  if !fd.hasIrFunc then
    .assertFail "fd->ir.irFunc"
  else
    let gIR := { gIR with functions := gIR.functions ++ [fd.mangle] }
    let asmstr := gIR.nakedAsm
    let mangle := fd.mangle
    let isWin := targetTriple.isOSWindows
    let isOSX := targetTriple.os == .Darwin || targetTriple.os == .MacOSX
    let asmstr :=
      if isOSX then
        let tmpl := fd.isTemplateInstance
        let sectionDir :=
          if tmpl then "section\t__TEXT,__textcoal_nt,coalesced,pure_instructions"
          else "text"
        let weak := tmpl
        let asmstr := asmstr ++ "\t." ++ sectionDir ++ "\n"
        let asmstr := asmstr ++ "\t.align\t4,0x90" ++ "\n"
        let asmstr := asmstr ++ "\t.globl\t_" ++ mangle ++ "\n"
        let asmstr :=
          if weak then asmstr ++ "\t.weak_definition\t_" ++ mangle ++ "\n" else asmstr
        asmstr ++ "_" ++ mangle ++ ":" ++ "\n"
      else
        let fullMangle :=
          (if targetTriple.os == .MinGW32 || targetTriple.os == .Win32 then "_" else "")
            ++ mangle
        let tmpl := fd.isTemplateInstance
        let linkage := if tmpl then "weak" else "globl"
        let sectionDir :=
          if tmpl then
            "section\t.gnu.linkonce.t." ++ fullMangle ++ ",\"ax\""
              ++ (if !isWin then ",@progbits" else "")
          else "text"
        let asmstr := asmstr ++ "\t." ++ sectionDir ++ "\n"
        let asmstr := asmstr ++ "\t.align\t16" ++ "\n"
        let asmstr :=
          if isWin then
            asmstr ++ "\t.def\t" ++ fullMangle ++ ";"
              ++ "\t.scl 2; .type 32;\t.endef" ++ "\n"
          else
            asmstr ++ "\t.type\t" ++ fullMangle ++ ",@function" ++ "\n"
        let asmstr := asmstr ++ "\t." ++ linkage ++ "\t" ++ fullMangle ++ "\n"
        asmstr ++ fullMangle ++ ":" ++ "\n"
    (fd.fbody.toNakedIR { gIR with nakedAsm := asmstr }).bind fun gIR =>
      if gIR.errors.length ≠ 0 then
        .fatal gIR.errors
      else
        let asmstr :=
          if !(isWin || isOSX) then
            gIR.nakedAsm ++ "\t.size\t" ++ mangle ++ ", .-" ++ mangle ++ "\n" ++ "\n"
          else gIR.nakedAsm
        .ok { gIR with
              moduleAsm := gIR.moduleAsm ++ [asmstr]
              nakedAsm := ""
              functions := gIR.functions.dropLast }

/-- The text that the header step of `DtoDefineNakedFunction` appends to the
buffer before the body is emitted (lines 134-191 of `naked.cpp`), on its own. -/
def nakedHeader (targetTriple : Triple) (fd : FuncDeclaration) : String :=
  let mangle := fd.mangle
  let isWin := targetTriple.isOSWindows
  let isOSX := targetTriple.os == .Darwin || targetTriple.os == .MacOSX
  if isOSX then
    let tmpl := fd.isTemplateInstance
    let sectionDir :=
      if tmpl then "section\t__TEXT,__textcoal_nt,coalesced,pure_instructions"
      else "text"
    "\t." ++ sectionDir ++ "\n" ++ "\t.align\t4,0x90" ++ "\n"
      ++ "\t.globl\t_" ++ mangle ++ "\n"
      ++ (if tmpl then "\t.weak_definition\t_" ++ mangle ++ "\n" else "")
      ++ "_" ++ mangle ++ ":" ++ "\n"
  else
    let fullMangle :=
      (if targetTriple.os == .MinGW32 || targetTriple.os == .Win32 then "_" else "")
        ++ mangle
    let tmpl := fd.isTemplateInstance
    let linkage := if tmpl then "weak" else "globl"
    let sectionDir :=
      if tmpl then
        "section\t.gnu.linkonce.t." ++ fullMangle ++ ",\"ax\""
          ++ (if !isWin then ",@progbits" else "")
      else "text"
    "\t." ++ sectionDir ++ "\n" ++ "\t.align\t16" ++ "\n"
      ++ (if isWin then
            "\t.def\t" ++ fullMangle ++ ";" ++ "\t.scl 2; .type 32;\t.endef" ++ "\n"
          else
            "\t.type\t" ++ fullMangle ++ ",@function" ++ "\n")
      ++ "\t." ++ linkage ++ "\t" ++ fullMangle ++ "\n"
      ++ fullMangle ++ ":" ++ "\n"

/-- The text that `DtoDefineNakedFunction` appends to the buffer after the body
(lines 203-206 of `naked.cpp`): the `.size` trailer, on targets that are
neither Windows nor Darwin / MacOSX, and nothing elsewhere. -/
def nakedTrailer (targetTriple : Triple) (fd : FuncDeclaration) : String :=
  if !(targetTriple.isOSWindows
        || (targetTriple.os == .Darwin || targetTriple.os == .MacOSX)) then
    "\t.size\t" ++ fd.mangle ++ ", .-" ++ fd.mangle ++ "\n" ++ "\n"
  else ""

/-! ## Implicit ABI return (`gen/naked.cpp`, lines 216-367) -/

/-- Modelled from the spec: the kinds `TY` of front-end types (`mtype.h`, not
among the sources). -/
inductive TY where
  | Tarray
  | Tsarray
  | Taarray
  | Tpointer
  | Treference
  | Tfunction
  | Tident
  | Tclass
  | Tstruct
  | Tenum
  | Ttypedef
  | Tdelegate
  | Tnone
  | Tvoid
  | Tint8
  | Tuns8
  | Tint16
  | Tuns16
  | Tint32
  | Tuns32
  | Tint64
  | Tuns64
  | Tfloat32
  | Tfloat64
  | Tfloat80
  | Timaginary32
  | Timaginary64
  | Timaginary80
  | Tcomplex32
  | Tcomplex64
  | Tcomplex80
  | Tbool
  | Tchar
  | Twchar
  | Tdchar
  | Terror
  | Tinstance
  | Ttypeof
  | Ttuple
  | Tslice
  | Treturn
  | Tnull
  | Tvector
deriving DecidableEq, Repr

/-- Modelled from the spec: a front-end type (`Type`, declared in `mtype.h`,
not among the sources) as the already-computed facts the code reads from it:
its kind `ty`, the answers of `isintegral()`, `isfloating()`, `iscomplex()`,
`size()` and `toChars()`, and whether it is the front end's global object of
its kind (such as `Type::tcomplex80`), which is what `rt == Type::t...`
compares. -/
structure DType where
  ty : TY
  isintegral : Bool
  isfloating : Bool
  iscomplex : Bool
  size : Nat
  toChars : String
  isBasicObject : Bool
deriving DecidableEq, Repr

/-- Embeds the comparison `rt == Type::t...` with the global object of the
basic kind `basic`. -/
def DType.isGlobal (rt : DType) (basic : TY) : Bool :=
  rt.isBasicObject && rt.ty == basic

/-- Modelled from the spec: the linkage `LINK` of a function (`mars.h`, not
among the sources). -/
inductive LINK where
  | LINKdefault
  | LINKd
  | LINKc
  | LINKcpp
  | LINKwindows
  | LINKpascal
  | LINKintrinsic
deriving DecidableEq, Repr

/-- The LLVM types that code generation names, `pointer` for pointer types and
`aggregate` for every other type. -/
inductive LLType where
  | void
  | i1
  | i8
  | i16
  | i32
  | i64
  | float
  | double
  | x86_fp80
  | pointer (pointee : LLType)
  | aggregate (name : String)
deriving DecidableEq, Repr

/-- Modelled from the spec: an asm statement `IRAsmStmt` (`gen/irstate.h`, not
among the sources): code text, output and input constraint strings, output
and input operands (`inp` is the member `in`). -/
structure IRAsmStmt where
  code : String
  out_c : String
  in_c : String
  out : List Nat
  inp : List Nat
deriving DecidableEq, Repr

/-- Embeds `new IRAsmStmt`: all members empty. -/
def IRAsmStmt.new : IRAsmStmt :=
  { code := "", out_c := "", in_c := "", out := [], inp := [] }

/-- Modelled from the spec: an asm block `IRAsmBlock` (`gen/irstate.h`, not
among the sources): the statement sequence `s` (a deque, front at the head),
the return type, the return-operand count and the emulated-return flag. -/
structure IRAsmBlock where
  s : List IRAsmStmt
  retty : LLType
  retn : Nat
  retemu : Bool
deriving DecidableEq, Repr

/-- Embeds `asmblock->s.push_front(as)`, the last step of
`emitABIReturnAsmStmt`. -/
def IRAsmBlock.push_front (asmblock : IRAsmBlock) (stmt : IRAsmStmt) : IRAsmBlock :=
  { asmblock with s := stmt :: asmblock.s }

/-- Modelled from the spec: what `emitABIReturnAsmStmt` reads of the function
declaration `fdecl`: the mangled name, the linkage, the declared return type
`type->nextOf()` and its `toBasetype()`. -/
structure AbiFuncDecl where
  mangle : String
  linkage : LINK
  retType : DType
  retBaseType : DType
deriving DecidableEq, Repr

/-- The text of the architecture in a triple. -/
def ArchType.name : ArchType → String
  | .x86 => "i386"
  | .x86_64 => "x86_64"
  | .arm => "arm"
  | .ppc => "powerpc"
  | .ppc64 => "powerpc64"
  | .mips => "mips"
  | .UnknownArch => "unknown"

/-- The text of the OS in a triple. -/
def OSType.name : OSType → String
  | .Darwin => "darwin"
  | .MacOSX => "macosx"
  | .Win32 => "win32"
  | .MinGW32 => "mingw32"
  | .Cygwin => "cygwin"
  | .Linux => "linux"
  | .FreeBSD => "freebsd"
  | .Solaris => "solaris"
  | .UnknownOS => "unknown"

/-- LLVM's `Triple::str()`, here the architecture and the OS of the triple. -/
def Triple.str (t : Triple) : String := t.arch.name ++ "-" ++ t.os.name

/-- Embeds `emitABIReturnAsmStmt(asmblock, loc, fdecl)` for the target
`targetTriple`; `DtoType` is the lowering of front-end types (defined outside
the sources) and `gIR.errors` the diagnostics on record. -/
def emitABIReturnAsmStmt (DtoType : DType → LLType) (targetTriple : Triple)
    (gIR : IRState) (asmblock : IRAsmBlock) (fdecl : AbiFuncDecl) : Outcome IRAsmBlock :=
  let stmt := IRAsmStmt.new
  let llretTy := DtoType fdecl.retType
  let asmblock := { asmblock with retty := llretTy, retn := 1 }
  if targetTriple.arch == .x86 then
    let l := fdecl.linkage
    if !(l == .LINKd || l == .LINKc || l == .LINKwindows) then
      .assertFail "(l == LINKd || l == LINKc || l == LINKwindows)"
    else
      let rt := fdecl.retBaseType
      if rt.isintegral || rt.ty == .Tpointer || rt.ty == .Tclass || rt.ty == .Taarray then
        if rt.size == 8 then
          .ok (asmblock.push_front { stmt with out_c := "=A," })
        else
          .ok (asmblock.push_front { stmt with out_c := "=\x7bax\x7d," })
      else if rt.isfloating then
        if rt.iscomplex then
          if fdecl.linkage == .LINKd then
            .ok (({ asmblock with retn := 2 } : IRAsmBlock).push_front
                  { stmt with out_c := "=\x7bst\x7d,=\x7bst(1)\x7d," })
          else if rt.ty == .Tcomplex32 then
            .ok (({ asmblock with retty := LLType.i64 } : IRAsmBlock).push_front
                  { stmt with out_c := "=A," })
          else
            .ok { asmblock with retty := LLType.void, retn := 0 }
        else
          .ok (asmblock.push_front { stmt with out_c := "=\x7bst\x7d," })
      else if rt.ty == .Tarray || rt.ty == .Tdelegate then
        .ok (({ asmblock with retn := 2 } : IRAsmBlock).push_front
              { stmt with out_c := "=\x7bax\x7d,=\x7bdx\x7d," })
      else
        .fatal (gIR.errors ++
          ["unimplemented return type \x27" ++ rt.toChars ++ "\x27 for implicit abi return"])
  else if targetTriple.arch == .x86_64 then
    let l := fdecl.linkage
    if !(l == .LINKd || l == .LINKc || l == .LINKwindows) then
      .assertFail "(l == LINKd || l == LINKc || l == LINKwindows)"
    else
      let rt := fdecl.retBaseType
      if rt.isintegral || rt.ty == .Tpointer || rt.ty == .Tclass || rt.ty == .Taarray then
        .ok (asmblock.push_front { stmt with out_c := "=\x7bax\x7d," })
      else if rt.isfloating then
        if rt.isGlobal .Tcomplex80 then
          .ok (({ asmblock with retn := 2 } : IRAsmBlock).push_front
                { stmt with out_c := "=\x7bst\x7d,=\x7bst(1)\x7d," })
        else if rt.isGlobal .Tfloat80 || rt.isGlobal .Timaginary80 then
          .ok (asmblock.push_front { stmt with out_c := "=\x7bst\x7d," })
        else if l != .LINKd && rt.isGlobal .Tcomplex32 then
          .ok (({ asmblock with retty := LLType.double } : IRAsmBlock).push_front
                { stmt with out_c := "=\x7bxmm0\x7d," })
        else if rt.iscomplex then
          .ok (({ asmblock with retn := 2 } : IRAsmBlock).push_front
                { stmt with out_c := "=\x7bxmm0\x7d,=\x7bxmm1\x7d," })
        else
          .ok (asmblock.push_front { stmt with out_c := "=\x7bxmm0\x7d," })
      else if rt.ty == .Tarray || rt.ty == .Tdelegate then
        .ok (({ asmblock with retn := 2 } : IRAsmBlock).push_front
              { stmt with out_c := "=\x7bax\x7d,=\x7bdx\x7d," })
      else
        .fatal (gIR.errors ++
          ["unimplemented return type \x27" ++ rt.toChars ++ "\x27 for implicit abi return"])
  else
    .fatal (gIR.errors ++
      ["this target (" ++ targetTriple.str
        ++ ") does not implement inline asm falling off the end of the function"])

/-- The base type is integral, a pointer, a class reference or an associative
array: the first test of both architecture branches. -/
def DType.integralLike (rt : DType) : Bool :=
  rt.isintegral || rt.ty == .Tpointer || rt.ty == .Tclass || rt.ty == .Taarray

/-- The base type is in one of the classes the implicit return handles:
integral, pointer, class reference, associative array, floating, dynamic
array, delegate. -/
def DType.abiReturnClass (rt : DType) : Bool :=
  rt.integralLike || rt.isfloating || rt.ty == .Tarray || rt.ty == .Tdelegate

/-- A complex basic type of kind `k` (`Tcomplex32`, `Tcomplex64` or
`Tcomplex80`): it is floating and complex, and not integral. -/
def DType.isComplexOfKind (rt : DType) (k : TY) : Bool :=
  rt.ty == k && (k == .Tcomplex32 || k == .Tcomplex64 || k == .Tcomplex80)
    && !rt.isintegral && rt.isfloating && rt.iscomplex

/-- The linkages the implicit return accepts: D, C and Windows. -/
def LINK.abiReturnLinkage (l : LINK) : Bool :=
  l == .LINKd || l == .LINKc || l == .LINKwindows

/-- The number of output constraints in an output-constraint string: each one
ends in a comma. -/
def countOutputConstraints (out_c : String) : Nat := out_c.data.count ','

/-! ## Inline-asm call expressions (`gen/naked.cpp`, lines 373-451) -/

/-- Modelled from the spec: an argument expression of the `__asm` call (the
expression classes are declared in the front end, not among the sources): a
string literal (`op == TOKstring`) with its character size `sz` and its
text, or an expression with any other operator. `rval` is the IR value of
the argument, `e->toElem(gIR)->getRVal()`. -/
inductive AsmArg (Val : Type) where
  | StringExp (sz : Nat) (string : String) (rval : Val)
  | other (toChars : String) (rval : Val)
deriving DecidableEq, Repr

/-- The IR value of the argument, `e->toElem(gIR)->getRVal()`. -/
def AsmArg.rval {Val : Type} : AsmArg Val → Val
  | .StringExp _ _ v => v
  | .other _ v => v

/-- Embeds the negation of the test `e->op != TOKstring || se->sz != 1`: the
argument is a string literal of one-byte characters. -/
def AsmArg.isCharLiteral {Val : Type} : AsmArg Val → Bool
  | .StringExp sz _ _ => sz == 1
  | .other _ _ => false

/-- The text of a string literal, `std::string(se->string, se->len)`. -/
def AsmArg.text {Val : Type} : AsmArg Val → String
  | .StringExp _ str _ => str
  | .other _ _ => ""

/-- The IR call that `DtoInlineAsmExpr` builds: the function type of the
inline asm (`ret_type`, `argtypes`, not variadic), the asm text, the
constraint string, the side-effect flag, and the operands of the call. -/
structure InlineAsmCall (Val : Type) where
  ret_type : LLType
  argtypes : List LLType
  code : String
  constraints : String
  sideeffect : Bool
  args : List Val
deriving DecidableEq, Repr

/-- The value `DtoInlineAsmExpr` returns: the call itself (`DImValue`), or, for
a struct result, a memory copy of its `fields` fields (`DVarValue`). -/
inductive AsmExprValue (Val : Type) where
  | DImValue (rv : InlineAsmCall Val)
  | DVarValue (rv : InlineAsmCall Val) (fields : Nat)
deriving DecidableEq, Repr

/-- The call behind the returned value. -/
def AsmExprValue.call {Val : Type} : AsmExprValue Val → InlineAsmCall Val
  | .DImValue rv => rv
  | .DVarValue rv _ => rv

/-- Modelled from the spec: what `DtoInlineAsmExpr` reads of the intrinsic's
declaration `fd`: whether its parent is a template instance, the base type of
its return type, and the number of fields when that is a struct. -/
structure AsmIntrinsicDecl where
  parentIsTemplateInstance : Bool
  retBaseType : DType
  structFields : Nat
deriving DecidableEq, Repr

/-- Embeds `DtoInlineAsmExpr(loc, fd, arguments)`; `DtoType` lowers front-end
types and `typeOf` is `llvm::Value::getType()`, both defined outside the
sources; `gIR.errors` are the diagnostics on record. -/
def DtoInlineAsmExpr {Val : Type} (DtoType : DType → LLType) (typeOf : Val → LLType)
    (gIR : IRState) (fd : AsmIntrinsicDecl) (arguments : List (AsmArg Val)) :
    Outcome (AsmExprValue Val) :=
  if !fd.parentIsTemplateInstance then
    .assertFail "ti && \"invalid inline __asm expr\""
  else
    match arguments with
    | [] => .assertFail "arguments->dim >= 2 && \"invalid __asm call\""
    | [_] => .assertFail "arguments->dim >= 2 && \"invalid __asm call\""
    | e0 :: e1 :: rest =>
      if !e0.isCharLiteral then
        .fatal (gIR.errors ++ ["__asm code argument is not a char[] string literal"])
      else
        let code := e0.text
        if !e1.isCharLiteral then
          .fatal (gIR.errors ++
            ["__asm constraints argument is not a char[] string literal"])
        else
          let constraints := e1.text
          let args := rest.map AsmArg.rval
          let argtypes := args.map typeOf
          let type := fd.retBaseType
          let ret_type := DtoType type
          let sideeffect := true
          let rv : InlineAsmCall Val :=
            { ret_type := ret_type, argtypes := argtypes, code := code,
              constraints := constraints, sideeffect := sideeffect, args := args }
          if type.ty == .Tstruct then
            .ok (.DVarValue rv fd.structFields)
          else
            .ok (.DImValue rv)

/-! ## `IrFuncTyArg`: construction (`ir/irfunction.cpp`, lines 13-20) -/

/-- Embeds `IrFuncTyArg::IrFuncTyArg(t, bref, a)`; the lowering `DtoType` and
`Type::pointerTo()` are defined outside the sources. -/
def IrFuncTyArg.construct {D L V : Type} (DtoType : D → L) (pointerTo : D → D)
    (t : D) (bref : Bool) (a : Nat) : IrFuncTyArg D L V :=
  { type := t
    ltype := if bref then DtoType (pointerTo t) else DtoType t
    attrs := a
    byref := bref
    rewrite := none }

/-- The LLVM type is a pointer type. -/
def LLType.isPointerTy : LLType → Bool
  | .pointer _ => true
  | _ => false

/-- Modelled from the spec: front-end types with their structure, as far as
`pointerTo()` builds it: a basic type of some kind, or a pointer to a type. -/
inductive SemType where
  | basic (ty : TY)
  | pointer (next : SemType)
deriving DecidableEq, Repr

/-- Modelled from the spec: `Type::pointerTo()`, the pointer type to `t`. -/
def SemType.pointerTo (t : SemType) : SemType := .pointer t

/-- Modelled from the spec: the canonical lowering `DtoType` (`gen/tollvm.cpp`,
not among the sources) on these types: a pointer type lowers to the LLVM
pointer to the lowering of its target, the integer kinds to the integer of
their width, everything else to a type of its own. -/
def SemType.DtoType : SemType → LLType
  | .pointer next => .pointer (SemType.DtoType next)
  | .basic .Tint8 => .i8
  | .basic .Tuns8 => .i8
  | .basic .Tint16 => .i16
  | .basic .Tuns16 => .i16
  | .basic .Tint32 => .i32
  | .basic .Tuns32 => .i32
  | .basic .Tint64 => .i64
  | .basic .Tuns64 => .i64
  | .basic _ => .aggregate "other"

/-! ## Theorems -/

theorem bind_ok {α β : Type} (a : α) (k : α → Outcome β) : (Outcome.ok a).bind k = k a := rfl

theorem bind_eq_ok {α β : Type} (o : Outcome α) (k : α → Outcome β) (b : β)
    (h : o.bind k = .ok b) : ∃ a, o = .ok a ∧ k a = .ok b := by
  cases o with
  | ok a => exact ⟨a, rfl, h⟩
  | assertFail m => cases h
  | fatal d => cases h
  | undefined => cases h

theorem foldl_scopes (scopes : List String) (acc : String) :
    scopes.foldl (fun result scope => result ++ (scope ++ "_")) acc
      = acc ++ String.join (scopes.map (fun scope => scope ++ "_")) := by
  apply String.ext
  induction scopes generalizing acc with
  | nil => simp
  | cons s rest ih => simp [ih]

/-- C1: `getScopedLabelName(base)` is `base` itself when no scope is open, and
otherwise `"__"`, then every scope name in push order each followed by `"_"`,
then `base`; after pushing `"L"` and `"M"` on a fresh state the name of `"x"`
is `"__L0_M0_x"`. -/
theorem getScopedLabelName_spec (self : IrFunction) (base : String) :
    self.getScopedLabelName base
        = (if self.labelScopes = [] then base
           else "__" ++ String.join (self.labelScopes.map (fun scope => scope ++ "_")) ++ base)
    ∧ ∃ s, (IrFunction.fresh.pushUniqueLabelScope "L").bind
              (fun t => t.pushUniqueLabelScope "M") = .ok s
          ∧ s.labelScopes = ["L0", "M0"]
          ∧ s.getScopedLabelName "x" = "__L0_M0_x" := by
  refine ⟨?_, ⟨_, rfl, by decide, by decide⟩⟩
  unfold IrFunction.getScopedLabelName
  cases h : self.labelScopes with
  | nil => simp
  | cons a l =>
    simp only [List.isEmpty_cons, Bool.false_eq_true, if_false, foldl_scopes]
    apply String.ext
    simp

/-- C2: on a state whose counter stack has top `top`, `pushUniqueLabelScope(name)`
appends `name` followed by the decimal form of `top` to the scope names, turns
the top counter into `top + 1` and pushes a new counter `0` above it; so on a
fresh state push "L", pop, push "L" leaves the scope names `["L1"]`. -/
theorem pushUniqueLabelScope_spec (self : IrFunction) (name : String)
    (top : Nat) (rest : List Nat) (h : self.nextUnique = top :: rest) :
    (∃ t, self.pushUniqueLabelScope name = .ok t
        ∧ t.labelScopes = self.labelScopes ++ [name ++ toString top]
        ∧ t.nextUnique = 0 :: (top + 1) :: rest
        ∧ t.queued = self.queued ∧ t.defined = self.defined)
    ∧ ∃ u, ((IrFunction.fresh.pushUniqueLabelScope "L").bind
              (fun a => a.popLabelScope)).bind
              (fun b => b.pushUniqueLabelScope "L") = .ok u
          ∧ u.labelScopes = ["L1"] ∧ u.labelScopes ≠ ["L0"] := by
  refine ⟨?_, ⟨_, rfl, by decide, by decide⟩⟩
  unfold IrFunction.pushUniqueLabelScope
  rw [h]
  exact ⟨_, rfl, rfl, rfl, rfl, rfl⟩

theorem pushUniqueLabelScope_spec_witness :
    IrFunction.fresh.nextUnique = 0 :: [] ∧
    ((∃ t, IrFunction.fresh.pushUniqueLabelScope "try" = .ok t
        ∧ t.labelScopes = IrFunction.fresh.labelScopes ++ ["try" ++ toString 0]
        ∧ t.nextUnique = 0 :: (0 + 1) :: []
        ∧ t.queued = IrFunction.fresh.queued ∧ t.defined = IrFunction.fresh.defined)
    ∧ ∃ u, ((IrFunction.fresh.pushUniqueLabelScope "L").bind
              (fun a => a.popLabelScope)).bind
              (fun b => b.pushUniqueLabelScope "L") = .ok u
          ∧ u.labelScopes = ["L1"] ∧ u.labelScopes ≠ ["L0"]) :=
  ⟨rfl, pushUniqueLabelScope_spec IrFunction.fresh "try" 0 [] rfl⟩

theorem digitChar_isDigit : ∀ k, k < 10 → (Nat.digitChar k).isDigit = true := by decide

theorem digitChar_value : ∀ k, k < 10 → (Nat.digitChar k).toNat - 48 = k := by decide

theorem toDigitsCore_isDigit (fuel : Nat) : ∀ (n : Nat) (ds : List Char),
    (∀ c ∈ ds, c.isDigit = true) →
    ∀ c ∈ Nat.toDigitsCore 10 fuel n ds, c.isDigit = true := by
  induction fuel with
  | zero => intro n ds h; simpa [Nat.toDigitsCore] using h
  | succ f ih =>
    intro n ds h
    have hd : ∀ c ∈ Nat.digitChar (n % 10) :: ds, c.isDigit = true := by
      intro c hc
      rcases List.mem_cons.mp hc with rfl | hc
      · exact digitChar_isDigit _ (Nat.mod_lt _ (by decide))
      · exact h c hc
    simp only [Nat.toDigitsCore]
    split
    · exact hd
    · exact ih _ _ hd

theorem repr_isDigit (d : Nat) : ∀ c ∈ (toString d).data, c.isDigit = true :=
  toDigitsCore_isDigit _ _ _ (by simp)

theorem toDigitsCore_value (fuel : Nat) : ∀ (n : Nat) (ds : List Char), n < fuel →
    digitsValue 0 (Nat.toDigitsCore 10 fuel n ds) = digitsValue n ds := by
  induction fuel with
  | zero => intro n ds h; omega
  | succ f ih =>
    intro n ds h
    simp only [Nat.toDigitsCore]
    have hv := digitChar_value (n % 10) (Nat.mod_lt _ (by decide))
    split
    · rename_i h0
      simp only [digitsValue, List.foldl_cons, hv]
      congr 1
      omega
    · rename_i h0
      rw [ih _ _ (by omega)]
      simp only [digitsValue, List.foldl_cons, hv]
      congr 1
      omega

theorem repr_value (d : Nat) : digitsValue 0 (toString d).data = d := by
  have := toDigitsCore_value (d + 1) d [] (by omega)
  simpa [digitsValue] using this

theorem repr_injective (a b : Nat) (h : toString a = toString b) : a = b := by
  rw [← repr_value a, ← repr_value b, h]

theorem split_at_digits (l1 l2 r1 r2 : List Char) (h : l1 ++ r1 = l2 ++ r2)
    (hr1 : ∀ c ∈ r1, c.isDigit = true) (hr2 : ∀ c ∈ r2, c.isDigit = true)
    (hl1 : ∀ c, l1.getLast? = some c → c.isDigit = false)
    (hl2 : ∀ c, l2.getLast? = some c → c.isDigit = false) :
    l1 = l2 ∧ r1 = r2 := by
  have key : ∀ (l l2 r a r2 : List Char), l2 = l ++ a → r = a ++ r2 →
      (∀ c ∈ r, c.isDigit = true) → (∀ c, l2.getLast? = some c → c.isDigit = false) →
      a = [] := by
    intro l l2 r a r2 e1 e2 hr hl
    by_contra hne
    have hlast : l2.getLast? = some (a.getLast hne) := by
      rw [e1, List.getLast?_append_of_ne_nil _ hne, List.getLast?_eq_getLast]
    have h1 := hl _ hlast
    have h2 := hr (a.getLast hne) (by rw [e2]; exact List.mem_append_left _ (List.getLast_mem hne))
    rw [h1] at h2
    cases h2
  rcases List.append_eq_append_iff.mp h with ⟨a, e1, e2⟩ | ⟨a, e1, e2⟩
  · have := key l1 l2 r1 a r2 e1 e2 hr1 hl2
    subst this
    simp at e1 e2
    exact ⟨e1.symm, e2⟩
  · have := key l2 l1 r2 a r1 e1 e2 hr2 hl1
    subst this
    simp at e1 e2
    exact ⟨e1, e2.symm⟩

theorem split_at_first (x : Char) (a b X Y : List Char) (h : a ++ x :: X = b ++ x :: Y)
    (ha : x ∉ a) (hb : x ∉ b) : a = b ∧ X = Y := by
  have key : ∀ (a b c X Y : List Char), b = a ++ c → x :: X = c ++ x :: Y → x ∉ b → c = [] := by
    intro a b c X Y e1 e2 hb
    cases c with
    | nil => rfl
    | cons c0 c' =>
      exfalso
      simp only [List.cons_append, List.cons.injEq] at e2
      apply hb
      rw [e1, e2.1]
      simp
  rcases List.append_eq_append_iff.mp h with ⟨c, e1, e2⟩ | ⟨c, e1, e2⟩
  · have := key a b c X Y e1 e2 hb
    subst this
    simp at e1 e2
    exact ⟨e1.symm, e2⟩
  · have := key b a c Y X e1 e2 ha
    subst this
    simp at e1 e2
    exact ⟨e1, e2.symm⟩


theorem cleanName_spec (n : String) (h : cleanName n = true) :
    '_' ∉ n.data ∧ ∀ c, n.data.getLast? = some c → c.isDigit = false := by
  simp only [cleanName, Bool.and_eq_true] at h
  refine ⟨by simpa using h.1, ?_⟩
  intro c hc
  have := h.2
  rw [hc] at this
  simpa using this

theorem scopeName_counter (n1 n2 : String) (d1 d2 : Nat) (h1 : cleanName n1 = true)
    (h2 : cleanName n2 = true) (h : n1 ++ toString d1 = n2 ++ toString d2) : d1 = d2 := by
  have hd := congrArg String.data h
  simp only [String.data_append] at hd
  have := (split_at_digits _ _ _ _ hd (repr_isDigit d1) (repr_isDigit d2)
    (cleanName_spec n1 h1).2 (cleanName_spec n2 h2).2).2
  exact repr_injective d1 d2 (String.ext this)

theorem scopeName_no_underscore (n : String) (d : Nat) (h : cleanName n = true) :
    '_' ∉ (n ++ toString d).data := by
  simp only [String.data_append, List.mem_append, not_or]
  refine ⟨(cleanName_spec n h).1, ?_⟩
  intro hmem
  have := repr_isDigit d _ hmem
  revert this
  decide

theorem pathOf_cons (c : Nat) (e : String) (L : List (Nat × String)) :
    pathOf ((c, e) :: L) = pathOf L ++ [e] := by
  simp [pathOf]

theorem countersBound_head (U : List (List String)) (c : Nat) (L : List (Nat × String))
    (h : CountersBound U c L) : BelowCounter U (pathOf L) c := by
  cases L with
  | nil => exact h
  | cons x L => exact h.1

theorem countersBound_mono (U : List (List String)) (c c2 : Nat) (L : List (Nat × String))
    (h : CountersBound U c L) (hc : c ≤ c2) : CountersBound U c2 L := by
  have hb : ∀ P, BelowCounter U P c → BelowCounter U P c2 :=
    fun P hP Q hQ n d rest hn e => Nat.lt_of_lt_of_le (hP Q hQ n d rest hn e) hc
  cases L with
  | nil => exact hb _ h
  | cons x L => exact ⟨hb _ h.1, h.2⟩

theorem countersBound_add (U : List (List String)) (Q : List String) :
    ∀ (L : List (Nat × String)) (c : Nat) (suffix : List String),
    CountersBound U c L → Q = pathOf L ++ suffix →
    (∀ (n : String) (d : Nat) (rest : List String), cleanName n = true →
        Q = pathOf L ++ (n ++ toString d) :: rest → d < c) →
    CountersBound (Q :: U) c L := by
  intro L
  induction L with
  | nil =>
    intro c suffix h _ hQ Q1 hQ1 n d rest hn e
    rcases List.mem_cons.mp hQ1 with rfl | hU
    · exact hQ n d rest hn e
    · exact h Q1 hU n d rest hn e
  | cons x L ih =>
    obtain ⟨c1, e⟩ := x
    intro c suffix h hpre hQ
    refine ⟨?_, h.2.1, ?_⟩
    · intro Q1 hQ1 n d rest hn e1
      rcases List.mem_cons.mp hQ1 with rfl | hU
      · exact hQ n d rest hn e1
      · exact h.1 Q1 hU n d rest hn e1
    · have hpre2 : Q = pathOf L ++ e :: suffix := by
        rw [hpre, pathOf_cons, List.append_assoc]
        rfl
      refine ih c1 (e :: suffix) h.2.2 hpre2 ?_
      intro n d rest hn e1
      rw [hpre2] at e1
      have := List.append_cancel_left e1
      simp only [List.cons.injEq] at this
      exact h.2.1 n d hn this.1

theorem instances_distinct : ∀ (ops : List ScopeOp) (s : IrFunction) (c : Nat)
    (L : List (Nat × String)) (U : List (List String)) (insts : List IrFunction),
    (∀ name, ScopeOp.push name ∈ ops → cleanName name = true) →
    s.nextUnique = c :: L.map Prod.fst → s.labelScopes = pathOf L →
    CountersBound U c L → (∀ e ∈ pathOf L, '_' ∉ e.data) →
    scopeInstances ops s = .ok insts →
    (insts.map (fun t => t.labelScopes)).Nodup
      ∧ (∀ t ∈ insts, t.labelScopes ∉ U)
      ∧ (∀ t ∈ insts, t.labelScopes ≠ [] ∧ ∀ e ∈ t.labelScopes, '_' ∉ e.data) := by
  intro ops
  induction ops with
  | nil =>
    intro s c L U insts _ _ _ _ _ h
    simp only [scopeInstances, Outcome.ok.injEq] at h
    subst h
    simp
  | cons op ops ih =>
    intro s c L U insts hclean hn hl hinv hwf h
    cases op with
    | pop =>
      rw [scopeInstances] at h
      obtain ⟨t, ht, hrest⟩ := bind_eq_ok _ _ _ h
      cases L with
      | nil =>
        simp [IrFunction.popLabelScope, hl, pathOf] at ht
      | cons x L =>
        obtain ⟨c1, e⟩ := x
        have hl2 : s.labelScopes = pathOf L ++ [e] := by rw [hl, pathOf_cons]
        have ht2 : t = { s with labelScopes := pathOf L, nextUnique := c1 :: L.map Prod.fst } := by
          simp [IrFunction.popLabelScope, hl2, hn] at ht
          exact ht.symm
        subst ht2
        refine ih _ c1 L U insts (fun name hm => hclean name (List.mem_cons_of_mem _ hm))
          rfl rfl hinv.2.2 ?_ hrest
        intro e1 he1
        exact hwf e1 (by rw [pathOf_cons]; exact List.mem_append_left _ he1)
    | push name =>
      rw [scopeInstances] at h
      obtain ⟨t, ht, h2⟩ := bind_eq_ok _ _ _ h
      obtain ⟨rest, hrest, h3⟩ := bind_eq_ok _ _ _ h2
      simp only [Outcome.ok.injEq] at h3
      subst h3
      have hname : cleanName name = true := hclean name (List.mem_cons_self _ _)
      have ht2 : t = { s with labelScopes := pathOf L ++ [name ++ toString c],
                              nextUnique := 0 :: (c + 1) :: L.map Prod.fst } := by
        simp [IrFunction.pushUniqueLabelScope, hl, hn] at ht
        exact ht.symm
      subst ht2
      have hhead := countersBound_head U c L hinv
      -- the new path is not among the used ones
      have hfresh : pathOf L ++ [name ++ toString c] ∉ U := by
        intro hmem
        exact Nat.lt_irrefl c (hhead _ hmem name c [] hname rfl)
      -- the invariant after the push
      have hinv2 : CountersBound ((pathOf L ++ [name ++ toString c]) :: U) 0
          ((c + 1, name ++ toString c) :: L) := by
        refine ⟨?_, ?_, ?_⟩
        · intro Q hQ n d rest hn1 e1
          exfalso
          rw [pathOf_cons] at e1
          rcases List.mem_cons.mp hQ with hq | hU
          · rw [hq] at e1
            have := congrArg List.length e1
            simp at this
          · rw [List.append_assoc] at e1
            exact Nat.lt_irrefl c (hhead Q hU name c _ hname e1)
        · intro n d hn1 e1
          have := scopeName_counter _ _ _ _ hname hn1 e1
          omega
        · refine countersBound_add U _ L (c + 1) [name ++ toString c]
            (countersBound_mono U c (c + 1) L hinv (Nat.le_succ c)) rfl ?_
          intro n d rest hn1 e1
          have := List.append_cancel_left e1
          simp only [List.cons.injEq] at this
          have := scopeName_counter _ _ _ _ hname hn1 this.1
          omega
      have hwf2 : ∀ e ∈ pathOf ((c + 1, name ++ toString c) :: L), '_' ∉ e.data := by
        intro e1 he1
        rw [pathOf_cons] at he1
        rcases List.mem_append.mp he1 with h1 | h1
        · exact hwf e1 h1
        · rw [List.mem_singleton.mp h1]
          exact scopeName_no_underscore name c hname
      obtain ⟨g1, g2, g3⟩ := ih _ 0 ((c + 1, name ++ toString c) :: L)
        ((pathOf L ++ [name ++ toString c]) :: U) rest
        (fun nm hm => hclean nm (List.mem_cons_of_mem _ hm))
        (by simp) (by simp [pathOf_cons]) hinv2 hwf2 hrest
      refine ⟨?_, ?_, ?_⟩
      · simp only [List.map_cons, List.nodup_cons]
        refine ⟨?_, g1⟩
        intro hmem
        obtain ⟨t1, ht1, heq⟩ := List.mem_map.mp hmem
        exact g2 t1 ht1 (by rw [heq]; exact List.mem_cons_self _ _)
      · intro t1 ht1
        rcases List.mem_cons.mp ht1 with rfl | hr
        · exact hfresh
        · exact fun hU => g2 t1 hr (List.mem_cons_of_mem _ hU)
      · intro t1 ht1
        rcases List.mem_cons.mp ht1 with rfl | hr
        · refine ⟨by simp, ?_⟩
          intro e1 he1
          have := hwf2 e1
          rw [pathOf_cons] at this
          exact this he1
        · exact g3 t1 hr


theorem scopes_text_injective : ∀ (A B : List String),
    (∀ e ∈ A, '_' ∉ e.data) → (∀ e ∈ B, '_' ∉ e.data) →
    (A.map (fun scope => scope.data ++ ['_'])).flatten
      = (B.map (fun scope => scope.data ++ ['_'])).flatten →
    A = B := by
  intro A
  induction A with
  | nil =>
    intro B _ _ h
    cases B with
    | nil => rfl
    | cons b B =>
      have := congrArg List.length h
      simp at this
      omega
  | cons a A ih =>
    intro B hA hB h
    cases B with
    | nil =>
      have := congrArg List.length h
      simp at this
    | cons b B =>
      simp only [List.map_cons, List.flatten_cons, List.append_assoc,
        List.singleton_append] at h
      obtain ⟨h1, h2⟩ := split_at_first '_' _ _ _ _ h (hA a (List.mem_cons_self _ _))
        (hB b (List.mem_cons_self _ _))
      rw [String.ext h1, ih B (fun e he => hA e (List.mem_cons_of_mem _ he))
        (fun e he => hB e (List.mem_cons_of_mem _ he)) h2]

theorem scopedLabel_injective (s t : IrFunction) (base : String)
    (hs : s.labelScopes ≠ [] ∧ ∀ e ∈ s.labelScopes, '_' ∉ e.data)
    (ht : t.labelScopes ≠ [] ∧ ∀ e ∈ t.labelScopes, '_' ∉ e.data)
    (h : s.getScopedLabelName base = t.getScopedLabelName base) :
    s.labelScopes = t.labelScopes := by
  have hse : s.labelScopes.isEmpty = false := by
    cases hl : s.labelScopes with
    | nil => exact absurd hl hs.1
    | cons a l => rfl
  have hte : t.labelScopes.isEmpty = false := by
    cases hl : t.labelScopes with
    | nil => exact absurd hl ht.1
    | cons a l => rfl
  simp only [IrFunction.getScopedLabelName, hse, hte, Bool.false_eq_true, if_false,
    foldl_scopes] at h
  have hd := congrArg String.data h
  simp only [String.data_append, String.data_join, List.map_map] at hd
  have hd2 := List.append_cancel_left (List.append_cancel_right hd)
  refine scopes_text_injective _ _ hs.2 ht.2 ?_
  simpa [Function.comp_def] using hd2

/-- C3 as stated fails: pushing "a1_b", popping, then pushing "a" and inside it
"b" opens three scope instances; the first has the scope names `["a1_b0"]`
and the third `["a1", "b0"]`, and both give the label `"__a1_b0_x"`. -/
theorem scoped_labels_collide :
    scopeInstances [.push "a1_b", .pop, .push "a", .push "b"] IrFunction.fresh
      = .ok [⟨["a1_b0"], [0, 1], false, false⟩,
             ⟨["a1"], [0, 2], false, false⟩,
             ⟨["a1", "b0"], [0, 1, 2], false, false⟩]
    ∧ (IrFunction.mk ["a1_b0"] [0, 1] false false).getScopedLabelName "x"
        = (IrFunction.mk ["a1", "b0"] [0, 1, 2] false false).getScopedLabelName "x"
    ∧ ¬ List.Pairwise
          (fun a b : IrFunction => a.getScopedLabelName "x" ≠ b.getScopedLabelName "x")
          [⟨["a1_b0"], [0, 1], false, false⟩,
           ⟨["a1"], [0, 2], false, false⟩,
           ⟨["a1", "b0"], [0, 1, 2], false, false⟩] := by
  refine ⟨by decide, by decide, ?_⟩
  intro h
  have := (List.pairwise_cons.mp h).1 ⟨["a1", "b0"], [0, 1, 2], false, false⟩ (by simp)
  exact this (by decide)

/-- C3 (amended): when every pushed name is free of `_` and does not end in a
decimal digit, then for every sequence of push / pop calls that runs from the
fresh state (pops only with a scope open) and every base, any two different
scope instances opened during the sequence have different scoped label
names. -/
theorem scoped_labels_unique (ops : List ScopeOp) (insts : List IrFunction)
    (base : String)
    (hclean : ∀ name, ScopeOp.push name ∈ ops → cleanName name = true)
    (hrun : scopeInstances ops IrFunction.fresh = .ok insts) :
    insts.Pairwise
      (fun a b => a.getScopedLabelName base ≠ b.getScopedLabelName base) := by
  obtain ⟨h1, -, h3⟩ := instances_distinct ops IrFunction.fresh 0 [] [] insts hclean
    rfl rfl (fun Q hQ => by simp at hQ) (fun e he => by simp [pathOf] at he) hrun
  have hp : insts.Pairwise (fun a b => a.labelScopes ≠ b.labelScopes) := by
    have := h1
    rw [List.Nodup, List.pairwise_map] at this
    exact this
  refine List.Pairwise.imp_of_mem ?_ hp
  intro a b ha hb hne heq
  exact hne (scopedLabel_injective a b base (h3 a ha) (h3 b hb) heq)

theorem scoped_labels_unique_witness :
    List.Pairwise
      (fun a b : IrFunction => a.getScopedLabelName "x" ≠ b.getScopedLabelName "x")
      [⟨["try0"], [0, 1], false, false⟩,
       ⟨["try0", "finally0"], [0, 1, 1], false, false⟩,
       ⟨["try1"], [0, 2], false, false⟩] :=
  scoped_labels_unique [.push "try", .push "finally", .pop, .pop, .push "try"] _ "x"
    (by
      intro name h
      simp at h
      rcases h with rfl | rfl | rfl <;> decide)
    (by decide)


theorem push_preserves_sizes (s t : IrFunction) (name : String)
    (hinv : s.nextUnique.length = s.labelScopes.length + 1)
    (h : s.pushUniqueLabelScope name = .ok t) :
    t.nextUnique.length = t.labelScopes.length + 1 := by
  unfold IrFunction.pushUniqueLabelScope at h
  cases hn : s.nextUnique with
  | nil => rw [hn] at h; cases h
  | cons top rest =>
    rw [hn] at h hinv
    cases h
    simp at hinv ⊢
    omega

theorem pop_preserves_sizes (s t : IrFunction)
    (hinv : s.nextUnique.length = s.labelScopes.length + 1)
    (h : s.popLabelScope = .ok t) :
    t.nextUnique.length = t.labelScopes.length + 1 := by
  unfold IrFunction.popLabelScope at h
  split at h
  · cases h
  · rename_i hne
    cases hn : s.nextUnique with
    | nil => rw [hn] at h; cases h
    | cons top rest =>
      rw [hn] at h hinv
      cases h
      have : s.labelScopes.length ≠ 0 := by
        intro h0
        exact hne (by simp [List.length_eq_zero.mp h0])
      simp at hinv ⊢
      omega

/-- C4: the constructor leaves one counter `0` and no scope name; push and pop
each keep "the counter stack is one longer than the scope-name stack"; hence
every state reachable from construction has that property. -/
theorem scope_stack_invariant :
    (IrFunction.construct true = .ok IrFunction.fresh
      ∧ IrFunction.fresh.nextUnique = [0] ∧ IrFunction.fresh.labelScopes = [])
    ∧ (∀ (s t : IrFunction) (name : String),
        s.nextUnique.length = s.labelScopes.length + 1 →
        s.pushUniqueLabelScope name = .ok t →
        t.nextUnique.length = t.labelScopes.length + 1)
    ∧ (∀ (s t : IrFunction),
        s.nextUnique.length = s.labelScopes.length + 1 →
        s.popLabelScope = .ok t →
        t.nextUnique.length = t.labelScopes.length + 1)
    ∧ (∀ s : IrFunction, s.Reachable →
        s.nextUnique.length = s.labelScopes.length + 1) := by
  refine ⟨⟨rfl, rfl, rfl⟩, push_preserves_sizes, pop_preserves_sizes, ?_⟩
  intro s hs
  induction hs with
  | construct => rfl
  | push name _ hstep ih => exact push_preserves_sizes _ _ name ih hstep
  | pop _ hstep ih => exact pop_preserves_sizes _ _ ih hstep

theorem scope_stack_invariant_witness :
    ∃ s : IrFunction, s.Reachable ∧ s.labelScopes = ["L0", "M0"]
      ∧ s.nextUnique.length = s.labelScopes.length + 1 :=
  ⟨{ labelScopes := ["L0", "M0"], nextUnique := [0, 1, 1], queued := false, defined := false },
    IrFunction.Reachable.push "M"
      (IrFunction.Reachable.push "L" IrFunction.Reachable.construct rfl) rfl,
    rfl,
    scope_stack_invariant.2.2.2 _
      (IrFunction.Reachable.push "M"
        (IrFunction.Reachable.push "L" IrFunction.Reachable.construct rfl) rfl)⟩

/-- C5 as stated fails: on the fresh state, where no scope is open,
`popLabelScope` does not stop at an assertion (the routine has none); the
`pop_back` on the empty vector is outside the container's contract. -/
theorem popLabelScope_no_assert :
    IrFunction.fresh.labelScopes = []
    ∧ IrFunction.fresh.popLabelScope = .undefined
    ∧ ¬ ∃ msg, IrFunction.fresh.popLabelScope = .assertFail msg := by
  refine ⟨rfl, rfl, ?_⟩
  rintro ⟨msg, h⟩
  cases h

/-- C5 (amended): with at least one scope open, `popLabelScope` removes exactly
the last pushed scope name and the top counter and nothing else, so the
counters below the top, the top-level one included, stay. -/
theorem popLabelScope_open (self : IrFunction) (init : List String) (last : String)
    (top : Nat) (rest : List Nat)
    (hs : self.labelScopes = init ++ [last]) (hn : self.nextUnique = top :: rest) :
    self.popLabelScope
      = .ok { self with labelScopes := init, nextUnique := rest } := by
  unfold IrFunction.popLabelScope
  rw [hs, hn]
  simp

theorem popLabelScope_open_witness :
    (IrFunction.mk ["L0", "M0"] [0, 1, 1] false false).popLabelScope
      = .ok (IrFunction.mk ["L0"] [1, 1] false false) :=
  popLabelScope_open (IrFunction.mk ["L0", "M0"] [0, 1, 1] false false)
    ["L0"] "M0" 0 [1, 1] rfl rfl

/-- C6: with a valid index `i`, `putParam` / `getParam` return the slot's
`rewrite.put` / `rewrite.get` of the value when slot `i` has a rewrite and the
value itself when it has none; `putRet` / `getRet` with the indirect-return
flag unset do the same on the return slot; so without a rewrite all four
return their input. -/
theorem rewrite_delegation {DType LType Val : Type} (self : IrFuncTy DType LType Val)
    (t : DType) (v : Val) :
    (∀ (i : Nat) (hi : i < self.args.length),
        self.putParam t (i : Int) v
          = .ok (match (self.args.get ⟨i, hi⟩).rewrite with
                 | some rw => rw.put t v
                 | none => v)
        ∧ self.getParam t (i : Int) v
          = .ok (match (self.args.get ⟨i, hi⟩).rewrite with
                 | some rw => rw.get t v
                 | none => v)
        ∧ ((self.args.get ⟨i, hi⟩).rewrite = none →
            self.putParam t (i : Int) v = .ok v ∧ self.getParam t (i : Int) v = .ok v))
    ∧ (self.arg_sret = false →
        self.putRet t v
          = .ok (match self.ret.rewrite with
                 | some rw => rw.put t v
                 | none => v)
        ∧ self.getRet t v
          = .ok (match self.ret.rewrite with
                 | some rw => rw.get t v
                 | none => v)
        ∧ (self.ret.rewrite = none → self.putRet t v = .ok v ∧ self.getRet t v = .ok v)) := by
  constructor
  · intro i hi
    have hidx : 0 ≤ (i : Int) ∧ (i : Int) < (self.args.length : Int) := by omega
    have hput : self.putParam t (i : Int) v
          = .ok (match (self.args.get ⟨i, hi⟩).rewrite with
                 | some rw => rw.put t v
                 | none => v) := by
      unfold IrFuncTy.putParam
      rw [dif_pos hidx]
      simp only [Int.toNat_ofNat]
      cases (self.args.get ⟨i, hi⟩).rewrite <;> rfl
    have hget : self.getParam t (i : Int) v
          = .ok (match (self.args.get ⟨i, hi⟩).rewrite with
                 | some rw => rw.get t v
                 | none => v) := by
      unfold IrFuncTy.getParam
      rw [dif_pos hidx]
      simp only [Int.toNat_ofNat]
      cases (self.args.get ⟨i, hi⟩).rewrite <;> rfl
    refine ⟨hput, hget, ?_⟩
    intro hnone
    rw [hput, hget, hnone]
    exact ⟨rfl, rfl⟩
  · intro hsret
    have hpr : self.putRet t v
          = .ok (match self.ret.rewrite with
                 | some rw => rw.put t v
                 | none => v) := by
      unfold IrFuncTy.putRet
      rw [hsret]
      cases self.ret.rewrite <;> rfl
    have hgr : self.getRet t v
          = .ok (match self.ret.rewrite with
                 | some rw => rw.get t v
                 | none => v) := by
      unfold IrFuncTy.getRet
      rw [hsret]
      cases self.ret.rewrite <;> rfl
    refine ⟨hpr, hgr, ?_⟩
    intro hnone
    rw [hpr, hgr, hnone]
    exact ⟨rfl, rfl⟩

theorem rewrite_delegation_witness :
    (⟨⟨0, 0, 0, false, none⟩,
        [⟨0, 0, 0, false, none⟩, ⟨0, 0, 0, true, some ⟨fun _ v => v + 1, fun _ v => v - 1⟩⟩],
        false⟩ : IrFuncTy Nat Nat Nat).putParam 7 1 41 = .ok 42
    ∧ (⟨⟨0, 0, 0, false, none⟩,
        [⟨0, 0, 0, false, none⟩, ⟨0, 0, 0, true, some ⟨fun _ v => v + 1, fun _ v => v - 1⟩⟩],
        false⟩ : IrFuncTy Nat Nat Nat).getRet 7 41 = .ok 41 :=
  ⟨((rewrite_delegation
      (⟨⟨0, 0, 0, false, none⟩,
        [⟨0, 0, 0, false, none⟩, ⟨0, 0, 0, true, some ⟨fun _ v => v + 1, fun _ v => v - 1⟩⟩],
        false⟩ : IrFuncTy Nat Nat Nat)
      7 41).1 1 (by decide)).1,
   ((rewrite_delegation
      (⟨⟨0, 0, 0, false, none⟩,
        [⟨0, 0, 0, false, none⟩, ⟨0, 0, 0, true, some ⟨fun _ v => v + 1, fun _ v => v - 1⟩⟩],
        false⟩ : IrFuncTy Nat Nat Nat)
      7 41).2 rfl).2.1⟩

/-- C7: `putParam` and `getParam` stop at their assertion exactly when the
index is negative or not below the number of argument slots, `putRet` and
`getRet` exactly when the indirect-return flag is set; in every other case a
value is returned. -/
theorem rewrite_contract_violations {DType LType Val : Type}
    (self : IrFuncTy DType LType Val) (t : DType) (idx : Int) (v : Val) :
    ((self.putParam t idx v).isAssertFail = true
        ↔ (idx < 0 ∨ (self.args.length : Int) ≤ idx))
    ∧ ((self.getParam t idx v).isAssertFail = true
        ↔ (idx < 0 ∨ (self.args.length : Int) ≤ idx))
    ∧ ((self.putRet t v).isAssertFail = true ↔ self.arg_sret = true)
    ∧ ((self.getRet t v).isAssertFail = true ↔ self.arg_sret = true)
    ∧ ((self.putParam t idx v).toOption = none
        ↔ (idx < 0 ∨ (self.args.length : Int) ≤ idx))
    ∧ ((self.getParam t idx v).toOption = none
        ↔ (idx < 0 ∨ (self.args.length : Int) ≤ idx))
    ∧ ((self.putRet t v).toOption = none ↔ self.arg_sret = true)
    ∧ ((self.getRet t v).toOption = none ↔ self.arg_sret = true) := by
  have hp :
      ((self.putParam t idx v).isAssertFail = true
          ↔ (idx < 0 ∨ (self.args.length : Int) ≤ idx))
      ∧ ((self.putParam t idx v).toOption = none
          ↔ (idx < 0 ∨ (self.args.length : Int) ≤ idx)) := by
    unfold IrFuncTy.putParam
    by_cases h : 0 ≤ idx ∧ idx < (self.args.length : Int)
    · rw [dif_pos h]
      have hn : ¬ (idx < 0 ∨ (self.args.length : Int) ≤ idx) := by omega
      cases (self.args.get ⟨idx.toNat, by omega⟩).rewrite <;>
        simp [Outcome.isAssertFail, Outcome.toOption, hn]
    · rw [dif_neg h]
      have hy : idx < 0 ∨ (self.args.length : Int) ≤ idx := by omega
      simp [Outcome.isAssertFail, Outcome.toOption, hy]
  have hg :
      ((self.getParam t idx v).isAssertFail = true
          ↔ (idx < 0 ∨ (self.args.length : Int) ≤ idx))
      ∧ ((self.getParam t idx v).toOption = none
          ↔ (idx < 0 ∨ (self.args.length : Int) ≤ idx)) := by
    unfold IrFuncTy.getParam
    by_cases h : 0 ≤ idx ∧ idx < (self.args.length : Int)
    · rw [dif_pos h]
      have hn : ¬ (idx < 0 ∨ (self.args.length : Int) ≤ idx) := by omega
      cases (self.args.get ⟨idx.toNat, by omega⟩).rewrite <;>
        simp [Outcome.isAssertFail, Outcome.toOption, hn]
    · rw [dif_neg h]
      have hy : idx < 0 ∨ (self.args.length : Int) ≤ idx := by omega
      simp [Outcome.isAssertFail, Outcome.toOption, hy]
  have hr : ((self.putRet t v).isAssertFail = true ↔ self.arg_sret = true)
      ∧ ((self.putRet t v).toOption = none ↔ self.arg_sret = true) := by
    unfold IrFuncTy.putRet
    cases hs : self.arg_sret <;> cases self.ret.rewrite <;>
      simp [Outcome.isAssertFail, Outcome.toOption]
  have hgr : ((self.getRet t v).isAssertFail = true ↔ self.arg_sret = true)
      ∧ ((self.getRet t v).toOption = none ↔ self.arg_sret = true) := by
    unfold IrFuncTy.getRet
    cases hs : self.arg_sret <;> cases self.ret.rewrite <;>
      simp [Outcome.isAssertFail, Outcome.toOption]
  exact ⟨hp.1, hg.1, hr.1, hgr.1, hp.2, hg.2, hr.2, hgr.2⟩

theorem lor_eq_zero (a b : Nat) : a ||| b = 0 ↔ a = 0 ∧ b = 0 := by
  constructor
  · intro h
    have hbit : ∀ i, (a.testBit i || b.testBit i) = false := by
      intro i
      rw [← Nat.testBit_or, h]
      simp
    constructor
    · apply Nat.eq_of_testBit_eq
      intro i
      have := hbit i
      simp only [Bool.or_eq_false_iff] at this
      simp [this.1]
    · apply Nat.eq_of_testBit_eq
      intro i
      have := hbit i
      simp only [Bool.or_eq_false_iff] at this
      simp [this.2]
  · rintro ⟨rfl, rfl⟩
    rfl

theorem storage_class_test (sc : Nat) :
    sc &&& (STCstatic ||| STCmanifest) = 0
      ↔ (sc &&& STCstatic = 0 ∧ sc &&& STCmanifest = 0) := by
  rw [Nat.and_or_distrib_left, lor_eq_zero]

theorem containsText_tail (pre sub : String) : containsText (pre ++ sub) sub := by
  refine ⟨pre.data, [], ?_⟩
  simp

/-- C8: for a declaration-expression statement, `ExpStatement::toNakedIR` hands
the declared entity to declaration codegen exactly when it is a variable with
the static or manifest storage class, a static function or an enum; for any
other entity it reports one diagnostic containing "not allowed in naked
function" and codegen is not entered. -/
theorem naked_declaration_rule (d : Dsymbol) (p : IRState) :
    (if d.allowedInNaked = true then
        ExpStatement.toNakedIR (.DeclarationExp d) p = p.codegen d
      else
        ∃ msg, containsText msg "not allowed in naked function"
          ∧ ExpStatement.toNakedIR (.DeclarationExp d) p = p.error msg)
    ∧ ((ExpStatement.toNakedIR (.DeclarationExp d) p).codegenned = p.codegenned ++ [d]
        ↔ d.allowedInNaked = true)
    ∧ ((ExpStatement.toNakedIR (.DeclarationExp d) p).codegenned = p.codegenned
        ↔ d.allowedInNaked = false) := by
  have key : (if d.allowedInNaked = true then
        ExpStatement.toNakedIR (.DeclarationExp d) p = p.codegen d
      else
        ∃ msg, containsText msg "not allowed in naked function"
          ∧ ExpStatement.toNakedIR (.DeclarationExp d) p = p.error msg) := by
    cases d with
    | VarDeclaration sc name =>
      by_cases h : sc &&& (STCstatic ||| STCmanifest) = 0
      · have h2 := (storage_class_test sc).mp h
        have hna : (Dsymbol.VarDeclaration sc name).allowedInNaked = false := by
          simp [Dsymbol.allowedInNaked, h2.1, h2.2]
        rw [hna]
        refine ⟨"non-static variable \x27" ++ name ++ "\x27 not allowed in naked function",
          ?_, by simp [ExpStatement.toNakedIR, h]⟩
        have := containsText_tail ("non-static variable \x27" ++ name ++ "\x27 ")
          "not allowed in naked function"
        rw [String.append_assoc] at this
        exact this
      · have h2 : ¬ (sc &&& STCstatic = 0 ∧ sc &&& STCmanifest = 0) :=
          fun hc => h ((storage_class_test sc).mpr hc)
        have ha : (Dsymbol.VarDeclaration sc name).allowedInNaked = true := by
          simp only [Dsymbol.allowedInNaked, Bool.or_eq_true, bne_iff_ne, ne_eq]
          by_cases h3 : sc &&& STCstatic = 0
          · right
            exact fun h4 => h2 ⟨h3, h4⟩
          · left
            exact h3
        rw [ha]
        simp [ExpStatement.toNakedIR, h]
    | FuncDeclaration isStatic name =>
      cases isStatic with
      | true => simp [Dsymbol.allowedInNaked, ExpStatement.toNakedIR]
      | false =>
        simp only [Dsymbol.allowedInNaked, Bool.false_eq_true, if_false]
        refine ⟨"non-static nested function \x27" ++ name
            ++ "\x27 not allowed in naked function",
          ?_, by simp [ExpStatement.toNakedIR]⟩
        have := containsText_tail ("non-static nested function \x27" ++ name ++ "\x27 ")
          "not allowed in naked function"
        rw [String.append_assoc] at this
        exact this
    | EnumDeclaration name => simp [Dsymbol.allowedInNaked, ExpStatement.toNakedIR]
    | other name =>
      simp only [Dsymbol.allowedInNaked, Bool.false_eq_true, if_false]
      refine ⟨"statement not allowed in naked function", ?_,
        by simp [ExpStatement.toNakedIR, Statement.toNakedIR_default]⟩
      exact containsText_tail "statement " "not allowed in naked function"
  refine ⟨key, ?_, ?_⟩
  · cases ha : d.allowedInNaked with
    | true =>
      rw [ha] at key
      simp only [if_true] at key
      simp [key, IRState.codegen]
    | false =>
      rw [ha] at key
      simp only [Bool.false_eq_true, if_false] at key
      obtain ⟨msg, -, hmsg⟩ := key
      simp [hmsg, IRState.error]
  · cases ha : d.allowedInNaked with
    | true =>
      rw [ha] at key
      simp only [if_true] at key
      simp [key, IRState.codegen]
    | false =>
      rw [ha] at key
      simp only [Bool.false_eq_true, if_false] at key
      obtain ⟨msg, -, hmsg⟩ := key
      simp [hmsg, IRState.error]

theorem expStatement_frame (exp : Expression) (p : IRState) :
    (ExpStatement.toNakedIR exp p).functions = p.functions
    ∧ (∃ e, (ExpStatement.toNakedIR exp p).errors = p.errors ++ e)
    ∧ (ExpStatement.toNakedIR exp p).moduleAsm = p.moduleAsm
    ∧ (ExpStatement.toNakedIR exp p).nakedAsm = p.nakedAsm := by
  cases exp with
  | other n => exact ⟨rfl, ⟨_, rfl⟩, rfl, rfl⟩
  | DeclarationExp d =>
    cases d with
    | VarDeclaration sc name =>
      simp only [ExpStatement.toNakedIR]
      split
      · exact ⟨rfl, ⟨_, rfl⟩, rfl, rfl⟩
      · exact ⟨rfl, ⟨[], by simp [IRState.codegen]⟩, rfl, rfl⟩
    | FuncDeclaration isStatic name =>
      simp only [ExpStatement.toNakedIR]
      split
      · exact ⟨rfl, ⟨_, rfl⟩, rfl, rfl⟩
      · exact ⟨rfl, ⟨[], by simp [IRState.codegen]⟩, rfl, rfl⟩
    | EnumDeclaration name => exact ⟨rfl, ⟨[], by simp [ExpStatement.toNakedIR, IRState.codegen]⟩, rfl, rfl⟩
    | other name => exact ⟨rfl, ⟨_, rfl⟩, rfl, rfl⟩

theorem getLast_some_of_ne_nil (l : List String) (h : l ≠ []) :
    ∃ m, l.getLast? = some m := by
  cases hl : l.getLast? with
  | none => exact absurd (List.getLast?_eq_none_iff.mp hl) h
  | some m => exact ⟨m, rfl⟩

mutual
theorem toNakedIR_returns : ∀ (s : Statement) (p : IRState), p.functions ≠ [] →
    ∃ q, s.toNakedIR p = .ok q ∧ q.functions = p.functions
      ∧ (∃ e, q.errors = p.errors ++ e) ∧ q.moduleAsm = p.moduleAsm
  | .CompoundStatement none, p, _ => ⟨p, by simp [Statement.toNakedIR], rfl, ⟨[], by simp⟩, rfl⟩
  | .CompoundStatement (some statements), p, hf => by
    rw [Statement.toNakedIR]
    exact toNakedIR_each_returns statements p hf
  | .ExpStatement exp, p, _ =>
    ⟨ExpStatement.toNakedIR exp p, by simp [Statement.toNakedIR],
      (expStatement_frame exp p).1, (expStatement_frame exp p).2.1,
      (expStatement_frame exp p).2.2.1⟩
  | .LabelStatement ident none, p, hf => by
    obtain ⟨m, hm⟩ := getLast_some_of_ne_nil p.functions hf
    exact ⟨{ p with nakedAsm := printLabelName p.nakedAsm m ident ++ ":" },
      by simp [Statement.toNakedIR, hm], rfl, ⟨[], by simp⟩, rfl⟩
  | .LabelStatement ident (some body), p, hf => by
    obtain ⟨m, hm⟩ := getLast_some_of_ne_nil p.functions hf
    obtain ⟨q, hq, h1, h2, h3⟩ := toNakedIR_returns body
      { p with nakedAsm := printLabelName p.nakedAsm m ident ++ ":" } hf
    exact ⟨q, by simp [Statement.toNakedIR, hm, hq], h1, h2, h3⟩
  | .other n, p, _ =>
    ⟨Statement.toNakedIR_default p, by simp [Statement.toNakedIR], rfl, ⟨_, rfl⟩, rfl⟩
theorem toNakedIR_each_returns : ∀ (l : List (Option Statement)) (p : IRState),
    p.functions ≠ [] →
    ∃ q, Statement.toNakedIR_each l p = .ok q ∧ q.functions = p.functions
      ∧ (∃ e, q.errors = p.errors ++ e) ∧ q.moduleAsm = p.moduleAsm
  | [], p, _ => ⟨p, by simp [Statement.toNakedIR_each], rfl, ⟨[], by simp⟩, rfl⟩
  | none :: rest, p, hf => by
    rw [Statement.toNakedIR_each]
    exact toNakedIR_each_returns rest p hf
  | some s :: rest, p, hf => by
    obtain ⟨q, hq, h1, ⟨e1, h2⟩, h3⟩ := toNakedIR_returns s p hf
    obtain ⟨r, hr, g1, ⟨e2, g2⟩, g3⟩ := toNakedIR_each_returns rest q (h1 ▸ hf)
    refine ⟨r, by simp [Statement.toNakedIR_each, hq, bind_ok, hr], g1.trans h1,
      ⟨e1 ++ e2, by rw [g2, h2, List.append_assoc]⟩, g3.trans h3⟩
end

mutual
theorem onlyCompoundLabel_no_diagnostic : ∀ (s : Statement) (p : IRState),
    p.functions ≠ [] → s.onlyCompoundLabel = true →
    ∃ q, s.toNakedIR p = .ok q ∧ q.errors = p.errors ∧ q.functions = p.functions
  | .CompoundStatement none, p, _, _ => ⟨p, by simp [Statement.toNakedIR], rfl, rfl⟩
  | .CompoundStatement (some statements), p, hf, h => by
    rw [Statement.toNakedIR]
    rw [Statement.onlyCompoundLabel] at h
    exact onlyCompoundLabel_each_no_diagnostic statements p hf h
  | .ExpStatement exp, p, _, h => by simp [Statement.onlyCompoundLabel] at h
  | .LabelStatement ident none, p, hf, _ => by
    obtain ⟨m, hm⟩ := getLast_some_of_ne_nil p.functions hf
    exact ⟨{ p with nakedAsm := printLabelName p.nakedAsm m ident ++ ":" },
      by simp [Statement.toNakedIR, hm], rfl, rfl⟩
  | .LabelStatement ident (some body), p, hf, h => by
    obtain ⟨m, hm⟩ := getLast_some_of_ne_nil p.functions hf
    rw [Statement.onlyCompoundLabel] at h
    obtain ⟨q, hq, h1, h2⟩ := onlyCompoundLabel_no_diagnostic body
      { p with nakedAsm := printLabelName p.nakedAsm m ident ++ ":" } hf h
    exact ⟨q, by simp [Statement.toNakedIR, hm, hq], h1, h2⟩
  | .other n, p, _, h => by simp [Statement.onlyCompoundLabel] at h
theorem onlyCompoundLabel_each_no_diagnostic : ∀ (l : List (Option Statement))
    (p : IRState), p.functions ≠ [] → Statement.onlyCompoundLabel_each l = true →
    ∃ q, Statement.toNakedIR_each l p = .ok q ∧ q.errors = p.errors
      ∧ q.functions = p.functions
  | [], p, _, _ => ⟨p, by simp [Statement.toNakedIR_each], rfl, rfl⟩
  | none :: rest, p, hf, h => by
    rw [Statement.toNakedIR_each]
    rw [Statement.onlyCompoundLabel_each] at h
    exact onlyCompoundLabel_each_no_diagnostic rest p hf h
  | some s :: rest, p, hf, h => by
    rw [Statement.onlyCompoundLabel_each, Bool.and_eq_true] at h
    obtain ⟨q, hq, h1, h2⟩ := onlyCompoundLabel_no_diagnostic s p hf h.1
    obtain ⟨r, hr, g1, g2⟩ := onlyCompoundLabel_each_no_diagnostic rest q (h2 ▸ hf) h.2
    exact ⟨r, by simp [Statement.toNakedIR_each, hq, bind_ok, hr], g1.trans h1, g2.trans h2⟩
end

theorem notWhitelisted_rejected (s : Statement) (h : s.notWhitelisted = true) (r : IRState) :
    s.toNakedIR r = .ok (r.error "statement not allowed in naked function") := by
  cases s with
  | CompoundStatement l => simp [Statement.notWhitelisted] at h
  | LabelStatement i b => simp [Statement.notWhitelisted] at h
  | other n => simp [Statement.toNakedIR, Statement.toNakedIR_default]
  | ExpStatement exp =>
    cases exp with
    | DeclarationExp d => simp [Statement.notWhitelisted] at h
    | other n =>
      simp [Statement.toNakedIR, ExpStatement.toNakedIR, Statement.toNakedIR_default]

theorem each_reports (msg : String) (c : Statement) :
    ∀ (l : List (Option Statement)), some c ∈ l →
    (∀ p : IRState, p.functions ≠ [] → ∃ q, c.toNakedIR p = .ok q ∧ msg ∈ q.errors) →
    ∀ p : IRState, p.functions ≠ [] →
      ∃ q, Statement.toNakedIR_each l p = .ok q ∧ msg ∈ q.errors := by
  intro l
  induction l with
  | nil => intro hmem; simp at hmem
  | cons x rest ih =>
    intro hmem hc p hf
    cases x with
    | none =>
      rw [Statement.toNakedIR_each]
      have hmem2 : some c ∈ rest := by
        rcases List.mem_cons.mp hmem with h | h
        · cases h
        · exact h
      exact ih hmem2 hc p hf
    | some s =>
      obtain ⟨q, hq, h1, ⟨e1, h2⟩, _⟩ := toNakedIR_returns s p hf
      rcases List.mem_cons.mp hmem with h | h
      · have hcs : c = s := by injection h
        subst hcs
        obtain ⟨q2, hq2, hin⟩ := hc p hf
        have hqq : q2 = q := by
          rw [hq2] at hq
          injection hq
        subst hqq
        obtain ⟨r, hr, _, ⟨e2, g2⟩, _⟩ := toNakedIR_each_returns rest q2 (h1 ▸ hf)
        refine ⟨r, by simp [Statement.toNakedIR_each, hq2, bind_ok, hr], ?_⟩
        rw [g2]
        exact List.mem_append_left _ hin
      · obtain ⟨r, hr, hin⟩ := ih h hc q (h1 ▸ hf)
        exact ⟨r, by simp [Statement.toNakedIR_each, hq, bind_ok, hr], hin⟩

theorem reaches_reports (t s : Statement) (hr : t.Reaches s)
    (hs : s.notWhitelisted = true) :
    ∀ p : IRState, p.functions ≠ [] →
      ∃ q, t.toNakedIR p = .ok q
        ∧ "statement not allowed in naked function" ∈ q.errors := by
  induction hr with
  | here s =>
    intro p _
    exact ⟨_, notWhitelisted_rejected s hs p, by simp [IRState.error]⟩
  | child hmem _ ih =>
    intro p hf
    rw [Statement.toNakedIR]
    exact each_reports _ _ _ hmem (ih hs) p hf
  | body _ ih =>
    intro p hf
    obtain ⟨m, hm⟩ := getLast_some_of_ne_nil p.functions hf
    rename_i ident b s0 _
    obtain ⟨q, hq, hin⟩ := ih hs
      { p with nakedAsm := printLabelName p.nakedAsm m ident ++ ":" } hf
    exact ⟨q, by simp [Statement.toNakedIR, hm, hq], hin⟩

/-- C9: with a function on the active-function stack, a statement tree built
only from compound and label statements (null children allowed) is emitted
without any new diagnostic; and when the traversal through compound children
and label bodies reaches a statement that is neither compound, nor label, nor
a declaration-expression statement, the diagnostic "statement not allowed in
naked function" is reported, and that statement leaves the naked-assembly
buffer as it was. -/
theorem naked_statement_whitelist (t : Statement) (p : IRState)
    (hf : p.functions ≠ []) :
    (t.onlyCompoundLabel = true → ∃ q, t.toNakedIR p = .ok q ∧ q.errors = p.errors)
    ∧ (∀ s : Statement, t.Reaches s → s.notWhitelisted = true →
        (∃ q, t.toNakedIR p = .ok q
          ∧ "statement not allowed in naked function" ∈ q.errors)
        ∧ ∀ r : IRState, ∃ r2, s.toNakedIR r = .ok r2
            ∧ r2.errors = r.errors ++ ["statement not allowed in naked function"]
            ∧ r2.nakedAsm = r.nakedAsm) := by
  constructor
  · intro h
    obtain ⟨q, hq, h1, _⟩ := onlyCompoundLabel_no_diagnostic t p hf h
    exact ⟨q, hq, h1⟩
  · intro s hr hs
    exact ⟨reaches_reports t s hr hs p hf,
      fun r => ⟨_, notWhitelisted_rejected s hs r, rfl, rfl⟩⟩

theorem naked_statement_whitelist_witness :
    (∃ q, (Statement.LabelStatement "L"
              (some (.CompoundStatement (some [none, some (.CompoundStatement none)])))).toNakedIR
            ⟨"", ["_D3foo"], [], [], []⟩ = .ok q
        ∧ q.errors = [])
    ∧ (∃ q, (Statement.LabelStatement "L"
              (some (.CompoundStatement
                (some [none, some (.ExpStatement (.other "a + b"))])))).toNakedIR
            ⟨"", ["_D3foo"], [], [], []⟩ = .ok q
        ∧ "statement not allowed in naked function" ∈ q.errors) :=
  ⟨(naked_statement_whitelist
      (Statement.LabelStatement "L"
        (some (.CompoundStatement (some [none, some (.CompoundStatement none)]))))
      ⟨"", ["_D3foo"], [], [], []⟩ (by decide)).1 (by decide),
   ((naked_statement_whitelist
      (Statement.LabelStatement "L"
        (some (.CompoundStatement (some [none, some (.ExpStatement (.other "a + b"))]))))
      ⟨"", ["_D3foo"], [], [], []⟩ (by decide)).2
        (.ExpStatement (.other "a + b"))
        (Statement.Reaches.body
          (Statement.Reaches.child (List.mem_cons_of_mem _ (List.mem_singleton.mpr rfl))
            (Statement.Reaches.here _)))
        rfl).1⟩

theorem expStatement_asm (exp : Expression) (p : IRState) (a : String) :
    ExpStatement.toNakedIR exp { p with nakedAsm := a }
      = { ExpStatement.toNakedIR exp p with nakedAsm := a } := by
  cases exp with
  | other n => rfl
  | DeclarationExp d =>
    cases d with
    | VarDeclaration sc name =>
      simp only [ExpStatement.toNakedIR]
      split <;> rfl
    | FuncDeclaration isStatic name =>
      simp only [ExpStatement.toNakedIR]
      split <;> rfl
    | EnumDeclaration name => rfl
    | other name => rfl

mutual
theorem toNakedIR_asm_frame : ∀ (s : Statement) (p q : IRState) (pre : String),
    s.toNakedIR p = .ok q →
    s.toNakedIR { p with nakedAsm := pre ++ p.nakedAsm }
      = .ok { q with nakedAsm := pre ++ q.nakedAsm }
  | .CompoundStatement none, p, q, pre, h => by
    simp only [Statement.toNakedIR, Outcome.ok.injEq] at h ⊢
    rw [h]
  | .CompoundStatement (some statements), p, q, pre, h => by
    rw [Statement.toNakedIR] at h ⊢
    exact toNakedIR_each_asm_frame statements p q pre h
  | .ExpStatement exp, p, q, pre, h => by
    simp only [Statement.toNakedIR, Outcome.ok.injEq] at h ⊢
    rw [expStatement_asm, h]
    have := (expStatement_frame exp p).2.2.2
    rw [h] at this
    rw [this]
  | .LabelStatement ident none, p, q, pre, h => by
    cases hm : p.functions.getLast? with
    | none => simp [Statement.toNakedIR, hm] at h
    | some m =>
      simp only [Statement.toNakedIR, hm, Outcome.ok.injEq] at h ⊢
      rw [← h]
      simp [printLabelName, String.append_assoc]
  | .LabelStatement ident (some body), p, q, pre, h => by
    cases hm : p.functions.getLast? with
    | none => simp [Statement.toNakedIR, hm] at h
    | some m =>
      simp only [Statement.toNakedIR, hm] at h ⊢
      have := toNakedIR_asm_frame body _ q pre h
      simp only [printLabelName, String.append_assoc] at this ⊢
      exact this
  | .other n, p, q, pre, h => by
    simp only [Statement.toNakedIR, Outcome.ok.injEq] at h ⊢
    rw [← h]
    rfl
theorem toNakedIR_each_asm_frame : ∀ (l : List (Option Statement)) (p q : IRState)
    (pre : String), Statement.toNakedIR_each l p = .ok q →
    Statement.toNakedIR_each l { p with nakedAsm := pre ++ p.nakedAsm }
      = .ok { q with nakedAsm := pre ++ q.nakedAsm }
  | [], p, q, pre, h => by
    simp only [Statement.toNakedIR_each, Outcome.ok.injEq] at h ⊢
    rw [h]
  | none :: rest, p, q, pre, h => by
    rw [Statement.toNakedIR_each] at h ⊢
    exact toNakedIR_each_asm_frame rest p q pre h
  | some s :: rest, p, q, pre, h => by
    rw [Statement.toNakedIR_each] at h ⊢
    obtain ⟨q1, h1, h2⟩ := bind_eq_ok _ _ _ h
    rw [toNakedIR_asm_frame s p q1 pre h1, bind_ok]
    exact toNakedIR_each_asm_frame rest q1 q pre h2
end

/-- C10: on a Darwin or MacOSX target the body is emitted into the buffer
behind the header and, when no diagnostic is on record after it,
`DtoDefineNakedFunction` hands the module, in this order: the section
directive (the coalesced `__TEXT,__textcoal_nt` section for a template
instantiation, `.text` otherwise), the alignment directive, `.globl _m`, the
line `.weak_definition _m` exactly for a template instantiation, the entry
label `_m:`, and the body text; nothing follows the body, so no `.size`
trailer is written. With a diagnostic on record the call ends in `fatal()`. -/
theorem apple_header (targetTriple : Triple) (fd : FuncDeclaration) (gIR : IRState)
    (hos : targetTriple.os = .Darwin ∨ targetTriple.os = .MacOSX)
    (hir : fd.hasIrFunc = true) :
    ∃ b, fd.fbody.toNakedIR
          { gIR with functions := gIR.functions ++ [fd.mangle], nakedAsm := "" } = .ok b
      ∧ DtoDefineNakedFunction targetTriple fd gIR
        = if b.errors.length ≠ 0 then .fatal b.errors
          else .ok { b with
              moduleAsm := gIR.moduleAsm ++
                [gIR.nakedAsm
                  ++ ((if fd.isTemplateInstance then
                        "\t." ++ "section\t__TEXT,__textcoal_nt,coalesced,pure_instructions"
                          ++ "\n" ++ "\t.align\t4,0x90" ++ "\n"
                          ++ "\t.globl\t_" ++ fd.mangle ++ "\n"
                          ++ "\t.weak_definition\t_" ++ fd.mangle ++ "\n"
                          ++ "_" ++ fd.mangle ++ ":" ++ "\n"
                      else
                        "\t." ++ "text" ++ "\n" ++ "\t.align\t4,0x90" ++ "\n"
                          ++ "\t.globl\t_" ++ fd.mangle ++ "\n"
                          ++ "_" ++ fd.mangle ++ ":" ++ "\n")
                      ++ b.nakedAsm)]
              nakedAsm := ""
              functions := gIR.functions } := by
  have hosx : (targetTriple.os == .Darwin || targetTriple.os == .MacOSX) = true := by
    rcases hos with h | h <;> rw [h] <;> rfl
  have hne : (gIR.functions ++ [fd.mangle]) ≠ [] := by simp
  obtain ⟨b, hbody, hfun, -, hmod⟩ := toNakedIR_returns fd.fbody
    { gIR with functions := gIR.functions ++ [fd.mangle], nakedAsm := "" } hne
  refine ⟨b, hbody, ?_⟩
  have hframe := fun pre => toNakedIR_asm_frame fd.fbody _ b pre hbody
  simp only [String.append_empty] at hframe
  unfold DtoDefineNakedFunction
  simp only [hir, hosx, Bool.not_true, Bool.false_eq_true, if_false, if_true, Bool.or_true]
  cases htm : fd.isTemplateInstance
  · simp only [Bool.false_eq_true, if_false]
    rw [hframe, bind_ok]
    split
    · rfl
    · simp only [hfun, hmod, List.dropLast_concat, String.append_assoc]
  · simp only [if_true]
    rw [hframe, bind_ok]
    split
    · rfl
    · simp only [hfun, hmod, List.dropLast_concat, String.append_assoc]

theorem apple_header_witness :
    DtoDefineNakedFunction ⟨.Darwin, .x86_64⟩
        ⟨"D3foo", true, true, .LabelStatement "L" none⟩ ⟨"", [], [], [], []⟩
      = .ok ⟨"", [],
          ["\t.section\t__TEXT,__textcoal_nt,coalesced,pure_instructions\n"
            ++ "\t.align\t4,0x90\n" ++ "\t.globl\t_D3foo\n"
            ++ "\t.weak_definition\t_D3foo\n" ++ "_D3foo:\n" ++ "D3foo_L:"],
          [], []⟩ := by
  obtain ⟨b, hb, h⟩ := apple_header ⟨.Darwin, .x86_64⟩
    ⟨"D3foo", true, true, .LabelStatement "L" none⟩ ⟨"", [], [], [], []⟩ (Or.inl rfl) rfl
  have hrun : (Statement.LabelStatement "L" none).toNakedIR ⟨"", ["D3foo"], [], [], []⟩
      = .ok ⟨"D3foo_L:", ["D3foo"], [], [], []⟩ := by decide
  have hb2 : b = ⟨"D3foo_L:", ["D3foo"], [], [], []⟩ := by
    have h2 := hb.symm.trans hrun
    injection h2
  subst hb2
  rw [h]
  decide

theorem driver_eq (targetTriple : Triple) (fd : FuncDeclaration) (gIR : IRState)
    (hir : fd.hasIrFunc = true) :
    DtoDefineNakedFunction targetTriple fd gIR
      = (fd.fbody.toNakedIR
          { gIR with functions := gIR.functions ++ [fd.mangle],
                     nakedAsm := gIR.nakedAsm ++ nakedHeader targetTriple fd }).bind
        fun q =>
          if q.errors.length ≠ 0 then .fatal q.errors
          else .ok { q with
                moduleAsm := q.moduleAsm ++ [q.nakedAsm ++ nakedTrailer targetTriple fd]
                nakedAsm := ""
                functions := q.functions.dropLast } := by
  unfold DtoDefineNakedFunction nakedHeader nakedTrailer
  simp only [hir, Bool.not_true, Bool.false_eq_true, if_false]
  cases hx : (targetTriple.os == OSType.Darwin || targetTriple.os == OSType.MacOSX) <;>
    cases hw : targetTriple.isOSWindows <;>
    cases ht : fd.isTemplateInstance <;>
    simp only [Bool.or_self, Bool.or_true, Bool.or_false, Bool.not_true, Bool.not_false,
      Bool.false_eq_true, if_false, if_true, String.append_assoc, String.append_empty,
      String.empty_append]

theorem driver_flush (targetTriple : Triple) (fd : FuncDeclaration) (gIR : IRState)
    (hir : fd.hasIrFunc = true) :
    ∃ b e, fd.fbody.toNakedIR
          { gIR with functions := gIR.functions ++ [fd.mangle], nakedAsm := "" } = .ok b
      ∧ b.errors = gIR.errors ++ e
      ∧ DtoDefineNakedFunction targetTriple fd gIR
        = if b.errors.length ≠ 0 then .fatal b.errors
          else .ok { b with
              moduleAsm := gIR.moduleAsm ++
                [gIR.nakedAsm ++ nakedHeader targetTriple fd ++ b.nakedAsm
                  ++ nakedTrailer targetTriple fd]
              nakedAsm := ""
              functions := gIR.functions } := by
  have hne : (gIR.functions ++ [fd.mangle]) ≠ [] := by simp
  obtain ⟨b, hbody, hfun, ⟨e, herr⟩, hmod⟩ := toNakedIR_returns fd.fbody
    { gIR with functions := gIR.functions ++ [fd.mangle], nakedAsm := "" } hne
  refine ⟨b, e, hbody, herr, ?_⟩
  have hframe := toNakedIR_asm_frame fd.fbody _ b
    (gIR.nakedAsm ++ nakedHeader targetTriple fd) hbody
  simp only [String.append_empty] at hframe
  rw [driver_eq targetTriple fd gIR hir, hframe, bind_ok]
  split
  · rfl
  · simp only [hfun, hmod, List.dropLast_concat, String.append_assoc]

theorem elf_texts (targetTriple : Triple) (fd : FuncDeclaration)
    (hnw : targetTriple.isOSWindows = false)
    (hnx : targetTriple.os ≠ .Darwin ∧ targetTriple.os ≠ .MacOSX) :
    nakedHeader targetTriple fd
      = (if fd.isTemplateInstance then
          "\t." ++ ("section\t.gnu.linkonce.t." ++ fd.mangle ++ ",\"ax\"" ++ ",@progbits")
            ++ "\n" ++ "\t.align\t16" ++ "\n"
            ++ "\t.type\t" ++ fd.mangle ++ ",@function" ++ "\n"
            ++ "\t.weak\t" ++ fd.mangle ++ "\n"
            ++ fd.mangle ++ ":" ++ "\n"
        else
          "\t." ++ "text" ++ "\n" ++ "\t.align\t16" ++ "\n"
            ++ "\t.type\t" ++ fd.mangle ++ ",@function" ++ "\n"
            ++ "\t.globl\t" ++ fd.mangle ++ "\n"
            ++ fd.mangle ++ ":" ++ "\n")
    ∧ nakedTrailer targetTriple fd
      = "\t.size\t" ++ fd.mangle ++ ", .-" ++ fd.mangle ++ "\n" ++ "\n" := by
  obtain ⟨h1, h2⟩ := hnx
  unfold nakedHeader nakedTrailer
  rw [hnw]
  have hw : targetTriple.os ≠ .MinGW32 ∧ targetTriple.os ≠ .Win32 := by
    unfold Triple.isOSWindows at hnw
    cases hos : targetTriple.os <;> simp [hos] at hnw ⊢
  have hx : (targetTriple.os == OSType.Darwin || targetTriple.os == OSType.MacOSX) = false := by
    simp [h1, h2]
  have hm : (targetTriple.os == OSType.MinGW32 || targetTriple.os == OSType.Win32) = false := by
    simp [hw.1, hw.2]
  rw [hx, hm]
  cases ht : fd.isTemplateInstance <;>
    simp only [Bool.or_self, Bool.not_false, Bool.false_eq_true, if_false, if_true,
      String.append_assoc, String.empty_append] <;>
    exact ⟨rfl, trivial⟩

/-- C11: on a target that is neither Windows nor Darwin / MacOSX, when no
diagnostic is on record after the body, `DtoDefineNakedFunction` hands the
module, in this order: the section directive, `.align 16`,
`.type m,@function`, the linkage directive, the entry label `m:`, the body
text, and the trailer `.size m, .-m` on the same symbol; the section is
`.text` with `.globl m` for a non-template function and
`.gnu.linkonce.t.m` with `.weak m` for a template instantiation. On every
Windows or Darwin / MacOSX target the text ends with the body: the trailer
is written on no other targets than the former. -/
theorem elf_header_footer (targetTriple : Triple) (fd : FuncDeclaration) (gIR : IRState)
    (hnw : targetTriple.isOSWindows = false)
    (hnx : targetTriple.os ≠ .Darwin ∧ targetTriple.os ≠ .MacOSX)
    (hir : fd.hasIrFunc = true) :
    (∃ b, fd.fbody.toNakedIR
          { gIR with functions := gIR.functions ++ [fd.mangle], nakedAsm := "" } = .ok b
      ∧ DtoDefineNakedFunction targetTriple fd gIR
        = if b.errors.length ≠ 0 then .fatal b.errors
          else .ok { b with
              moduleAsm := gIR.moduleAsm ++
                [gIR.nakedAsm
                  ++ (if fd.isTemplateInstance then
                        "\t." ++ ("section\t.gnu.linkonce.t." ++ fd.mangle ++ ",\"ax\""
                                    ++ ",@progbits")
                          ++ "\n" ++ "\t.align\t16" ++ "\n"
                          ++ "\t.type\t" ++ fd.mangle ++ ",@function" ++ "\n"
                          ++ "\t.weak\t" ++ fd.mangle ++ "\n"
                          ++ fd.mangle ++ ":" ++ "\n"
                      else
                        "\t." ++ "text" ++ "\n" ++ "\t.align\t16" ++ "\n"
                          ++ "\t.type\t" ++ fd.mangle ++ ",@function" ++ "\n"
                          ++ "\t.globl\t" ++ fd.mangle ++ "\n"
                          ++ fd.mangle ++ ":" ++ "\n")
                  ++ b.nakedAsm
                  ++ ("\t.size\t" ++ fd.mangle ++ ", .-" ++ fd.mangle ++ "\n" ++ "\n")]
              nakedAsm := ""
              functions := gIR.functions })
    ∧ (∀ other : Triple,
        (other.isOSWindows = true ∨ other.os = .Darwin ∨ other.os = .MacOSX) →
        ∃ b, fd.fbody.toNakedIR
              { gIR with functions := gIR.functions ++ [fd.mangle], nakedAsm := "" } = .ok b
          ∧ DtoDefineNakedFunction other fd gIR
            = if b.errors.length ≠ 0 then .fatal b.errors
              else .ok { b with
                  moduleAsm := gIR.moduleAsm ++
                    [gIR.nakedAsm ++ nakedHeader other fd ++ b.nakedAsm]
                  nakedAsm := ""
                  functions := gIR.functions }) := by
  constructor
  · obtain ⟨b, e, hb, -, h⟩ := driver_flush targetTriple fd gIR hir
    refine ⟨b, hb, ?_⟩
    rw [h, (elf_texts targetTriple fd hnw hnx).1, (elf_texts targetTriple fd hnw hnx).2]
  · intro other ho
    obtain ⟨b, e, hb, -, h⟩ := driver_flush other fd gIR hir
    refine ⟨b, hb, ?_⟩
    have ht : nakedTrailer other fd = "" := by
      unfold nakedTrailer
      rcases ho with h1 | h1 | h1 <;> simp [h1]
    rw [h, ht, String.append_empty]

theorem elf_header_footer_witness :
    DtoDefineNakedFunction ⟨.Linux, .x86_64⟩
        ⟨"D3foo", false, true, .LabelStatement "L" none⟩ ⟨"", [], [], [], []⟩
      = .ok ⟨"", [],
          ["\t.text\n" ++ "\t.align\t16\n" ++ "\t.type\tD3foo,@function\n"
            ++ "\t.globl\tD3foo\n" ++ "D3foo:\n" ++ "D3foo_L:"
            ++ "\t.size\tD3foo, .-D3foo\n\n"],
          [], []⟩ := by
  obtain ⟨b, hb, h⟩ := (elf_header_footer ⟨.Linux, .x86_64⟩
    ⟨"D3foo", false, true, .LabelStatement "L" none⟩ ⟨"", [], [], [], []⟩
    (by decide) (by decide) rfl).1
  have hrun : (Statement.LabelStatement "L" none).toNakedIR ⟨"", ["D3foo"], [], [], []⟩
      = .ok ⟨"D3foo_L:", ["D3foo"], [], [], []⟩ := by decide
  have hb2 : b = ⟨"D3foo_L:", ["D3foo"], [], [], []⟩ := by
    have h2 := hb.symm.trans hrun
    injection h2
  subst hb2
  rw [h]
  decide

/-- C12 as stated fails: with a diagnostic already on record before the call,
a body that raises no diagnostic (an empty compound statement) still ends in
`fatal()`: the driver tests the count of all diagnostics, not only those of
the body. -/
theorem flush_aborts_on_earlier_diagnostic :
    (Statement.CompoundStatement none).toNakedIR ⟨"", ["D3foo"], [], ["earlier"], []⟩
      = .ok ⟨"", ["D3foo"], [], ["earlier"], []⟩
    ∧ DtoDefineNakedFunction ⟨.Linux, .x86_64⟩
        ⟨"D3foo", false, true, .CompoundStatement none⟩ ⟨"", [], [], ["earlier"], []⟩
      = .fatal ["earlier"]
    ∧ ¬ ∃ q, DtoDefineNakedFunction ⟨.Linux, .x86_64⟩
        ⟨"D3foo", false, true, .CompoundStatement none⟩ ⟨"", [], [], ["earlier"], []⟩
      = .ok q := by
  refine ⟨by decide, by decide, ?_⟩
  rintro ⟨q, hq⟩
  have h : DtoDefineNakedFunction ⟨.Linux, .x86_64⟩
        ⟨"D3foo", false, true, .CompoundStatement none⟩ ⟨"", [], [], ["earlier"], []⟩
      = .fatal ["earlier"] := by decide
  rw [h] at hq
  cases hq

/-- C12 (amended): the body is emitted behind the header; if any diagnostic is
on record afterwards, raised while emitting the body or reported before the
call, `DtoDefineNakedFunction` ends in `fatal()` and the module receives
nothing; with none on record it hands the module exactly the buffer contents
(earlier buffer text, header, body text, trailer), leaves the buffer empty and
the active-function stack as it was before the call. -/
theorem naked_flush (targetTriple : Triple) (fd : FuncDeclaration) (gIR : IRState)
    (hir : fd.hasIrFunc = true) :
    ∃ b e, fd.fbody.toNakedIR
          { gIR with functions := gIR.functions ++ [fd.mangle], nakedAsm := "" } = .ok b
      ∧ b.errors = gIR.errors ++ e
      ∧ (e ≠ [] → DtoDefineNakedFunction targetTriple fd gIR = .fatal (gIR.errors ++ e))
      ∧ (gIR.errors ≠ [] →
          DtoDefineNakedFunction targetTriple fd gIR = .fatal (gIR.errors ++ e))
      ∧ (gIR.errors = [] → e = [] →
          DtoDefineNakedFunction targetTriple fd gIR
            = .ok { b with
                moduleAsm := gIR.moduleAsm ++
                  [gIR.nakedAsm ++ nakedHeader targetTriple fd ++ b.nakedAsm
                    ++ nakedTrailer targetTriple fd]
                nakedAsm := ""
                functions := gIR.functions }) := by
  obtain ⟨b, e, hb, he, h⟩ := driver_flush targetTriple fd gIR hir
  refine ⟨b, e, hb, he, ?_, ?_, ?_⟩
  · intro hne
    rw [h, he]
    have : (gIR.errors ++ e).length ≠ 0 := by
      cases e with
      | nil => exact absurd rfl hne
      | cons x l => simp
    rw [if_pos this]
  · intro hne
    rw [h, he]
    have : (gIR.errors ++ e).length ≠ 0 := by
      cases hg : gIR.errors with
      | nil => exact absurd hg hne
      | cons x l => simp
    rw [if_pos this]
  · intro h1 h2
    rw [h, he, h1, h2]
    simp

theorem naked_flush_witness :
    ∃ b e, (Statement.ExpStatement (.other "a + b")).toNakedIR
          ⟨"", ["D3foo"], [], [], []⟩ = .ok b
      ∧ b.errors = [] ++ e
      ∧ e = ["statement not allowed in naked function"]
      ∧ DtoDefineNakedFunction ⟨.Linux, .x86_64⟩
          ⟨"D3foo", false, true, .ExpStatement (.other "a + b")⟩ ⟨"", [], [], [], []⟩
        = .fatal ([] ++ e) := by
  obtain ⟨b, e, hb, he, h1, -, -⟩ := naked_flush ⟨.Linux, .x86_64⟩
    ⟨"D3foo", false, true, .ExpStatement (.other "a + b")⟩ ⟨"", [], [], [], []⟩ rfl
  have hrun : (Statement.ExpStatement (.other "a + b")).toNakedIR ⟨"", ["D3foo"], [], [], []⟩
      = .ok ⟨"", ["D3foo"], [], ["statement not allowed in naked function"], []⟩ := by decide
  have hb2 : b = ⟨"", ["D3foo"], [], ["statement not allowed in naked function"], []⟩ := by
    have h2 := hb.symm.trans hrun
    injection h2
  subst hb2
  have he2 : e = ["statement not allowed in naked function"] := by
    simpa using he.symm
  exact ⟨_, e, hrun, he, he2, h1 (by rw [he2]; simp)⟩

theorem complexOfKind_facts (rt : DType) (k : TY) (h : rt.isComplexOfKind k = true) :
    rt.ty = k ∧ rt.isintegral = false ∧ rt.isfloating = true ∧ rt.iscomplex = true := by
  unfold DType.isComplexOfKind at h
  simp only [Bool.and_eq_true, beq_iff_eq, Bool.not_eq_true'] at h
  obtain ⟨⟨⟨⟨hty, -⟩, hi⟩, hf⟩, hc⟩ := h
  exact ⟨hty, hi, hf, hc⟩

/-- C13: for a return base type that is integral, a pointer, a class reference
or an associative array (linkage D, C or Windows), `emitABIReturnAsmStmt`
yields one return operand; on x86 the output constraint is `=A,` when the
size of the type is 8 and `={ax},` otherwise, on x86_64 it is `={ax},`
whatever the size; the statement goes to the front of the block. -/
theorem integral_like_return (DtoType : DType → LLType) (targetTriple : Triple)
    (gIR : IRState) (asmblock : IRAsmBlock) (fdecl : AbiFuncDecl)
    (hl : fdecl.linkage.abiReturnLinkage = true)
    (hrt : fdecl.retBaseType.integralLike = true) :
    (targetTriple.arch = .x86 →
      emitABIReturnAsmStmt DtoType targetTriple gIR asmblock fdecl
        = .ok { s := { IRAsmStmt.new with
                        out_c := if fdecl.retBaseType.size = 8 then "=A,"
                                 else "=\x7bax\x7d," } :: asmblock.s
                retty := DtoType fdecl.retType
                retn := 1
                retemu := asmblock.retemu })
    ∧ (targetTriple.arch = .x86_64 →
      emitABIReturnAsmStmt DtoType targetTriple gIR asmblock fdecl
        = .ok { s := { IRAsmStmt.new with out_c := "=\x7bax\x7d," } :: asmblock.s
                retty := DtoType fdecl.retType
                retn := 1
                retemu := asmblock.retemu }) := by
  unfold LINK.abiReturnLinkage at hl
  unfold DType.integralLike at hrt
  constructor
  · intro ha
    unfold emitABIReturnAsmStmt
    simp only [ha, hl, hrt, beq_self_eq_true, Bool.not_true, Bool.false_eq_true,
      if_false, if_true]
    by_cases h8 : fdecl.retBaseType.size = 8
    · simp [h8, IRAsmBlock.push_front]
    · simp [h8, IRAsmBlock.push_front]
  · intro ha
    unfold emitABIReturnAsmStmt
    have hne : (ArchType.x86_64 == ArchType.x86) = false := by decide
    simp only [ha, hl, hrt, hne, beq_self_eq_true, Bool.not_true, Bool.false_eq_true,
      if_false, if_true]
    rfl

theorem integral_like_return_witness :
    emitABIReturnAsmStmt (fun _ => LLType.i64) ⟨.Linux, .x86⟩ ⟨"", [], [], [], []⟩
        ⟨[⟨"nop", "", "", [], []⟩], .void, 0, false⟩
        ⟨"foo", .LINKd, ⟨.Tint64, true, false, false, 8, "long", true⟩,
          ⟨.Tint64, true, false, false, 8, "long", true⟩⟩
      = .ok ⟨[⟨"", "=A,", "", [], []⟩, ⟨"nop", "", "", [], []⟩], .i64, 1, false⟩ :=
  ((integral_like_return (fun _ => LLType.i64) ⟨.Linux, .x86⟩ ⟨"", [], [], [], []⟩
      ⟨[⟨"nop", "", "", [], []⟩], .void, 0, false⟩
      ⟨"foo", .LINKd, ⟨.Tint64, true, false, false, 8, "long", true⟩,
        ⟨.Tint64, true, false, false, 8, "long", true⟩⟩
      (by decide) (by decide)).1 rfl).trans (by decide)

/-- C14 as stated fails: on x86, for a C-linkage function returning `cfloat`,
`emitABIReturnAsmStmt` yields one return operand (`=A,`, return type `i64`)
and inserts the statement; `retn` is not 0 and the type is not void. -/
theorem foreign_cfloat_not_zero :
    emitABIReturnAsmStmt (fun _ => LLType.aggregate "cfloat") ⟨.Linux, .x86⟩
        ⟨"", [], [], [], []⟩ ⟨[], .aggregate "none", 7, false⟩
        ⟨"foo", .LINKc, ⟨.Tcomplex32, false, true, true, 8, "cfloat", true⟩,
          ⟨.Tcomplex32, false, true, true, 8, "cfloat", true⟩⟩
      = .ok ⟨[⟨"", "=A,", "", [], []⟩], .i64, 1, false⟩
    ∧ ¬ ∃ b, emitABIReturnAsmStmt (fun _ => LLType.aggregate "cfloat") ⟨.Linux, .x86⟩
        ⟨"", [], [], [], []⟩ ⟨[], .aggregate "none", 7, false⟩
        ⟨"foo", .LINKc, ⟨.Tcomplex32, false, true, true, 8, "cfloat", true⟩,
          ⟨.Tcomplex32, false, true, true, 8, "cfloat", true⟩⟩ = .ok b
        ∧ b.retn = 0 ∧ b.retty = .void ∧ b.s = [] := by
  have h : emitABIReturnAsmStmt (fun _ => LLType.aggregate "cfloat") ⟨.Linux, .x86⟩
        ⟨"", [], [], [], []⟩ ⟨[], .aggregate "none", 7, false⟩
        ⟨"foo", .LINKc, ⟨.Tcomplex32, false, true, true, 8, "cfloat", true⟩,
          ⟨.Tcomplex32, false, true, true, 8, "cfloat", true⟩⟩
      = .ok ⟨[⟨"", "=A,", "", [], []⟩], .i64, 1, false⟩ := by decide
  refine ⟨h, ?_⟩
  rintro ⟨b, hb, h0, -, -⟩
  rw [h] at hb
  injection hb with hb
  rw [← hb] at h0
  cases h0

/-- C14 (amended): on x86, for a function with a foreign (C or Windows)
calling convention whose return base type is `cfloat`, `emitABIReturnAsmStmt`
yields one return operand (`retn = 1`, constraint `=A,`), the 64-bit integer
as synthetic return type, and inserts that statement at the front of the
block. -/
theorem foreign_cfloat_return (DtoType : DType → LLType) (targetTriple : Triple)
    (gIR : IRState) (asmblock : IRAsmBlock) (fdecl : AbiFuncDecl)
    (ha : targetTriple.arch = .x86)
    (hl : fdecl.linkage = .LINKc ∨ fdecl.linkage = .LINKwindows)
    (hrt : fdecl.retBaseType.isComplexOfKind .Tcomplex32 = true) :
    emitABIReturnAsmStmt DtoType targetTriple gIR asmblock fdecl
      = .ok { s := { IRAsmStmt.new with out_c := "=A," } :: asmblock.s
              retty := LLType.i64
              retn := 1
              retemu := asmblock.retemu } := by
  obtain ⟨hty, hi, hf, hc⟩ := complexOfKind_facts _ _ hrt
  unfold emitABIReturnAsmStmt
  rcases hl with hl | hl <;>
    simp [ha, hl, hi, hf, hc, hty, IRAsmBlock.push_front]

theorem foreign_cfloat_return_witness :
    emitABIReturnAsmStmt (fun _ => LLType.aggregate "cfloat") ⟨.Linux, .x86⟩
        ⟨"", [], [], [], []⟩ ⟨[], .aggregate "none", 7, false⟩
        ⟨"foo", .LINKwindows, ⟨.Tcomplex32, false, true, true, 8, "cfloat", true⟩,
          ⟨.Tcomplex32, false, true, true, 8, "cfloat", true⟩⟩
      = .ok ⟨[⟨"", "=A,", "", [], []⟩], .i64, 1, false⟩ :=
  foreign_cfloat_return (fun _ => LLType.aggregate "cfloat") ⟨.Linux, .x86⟩
    ⟨"", [], [], [], []⟩ ⟨[], .aggregate "none", 7, false⟩
    ⟨"foo", .LINKwindows, ⟨.Tcomplex32, false, true, true, 8, "cfloat", true⟩,
      ⟨.Tcomplex32, false, true, true, 8, "cfloat", true⟩⟩
    rfl (Or.inr rfl) (by decide)

/-- C15: on x86, for a function with C or Windows linkage, a `cfloat` return
yields the single constraint `=A,` with `retn = 1` and the synthetic return
type `i64`, while a `cdouble` or `creal` return yields `retn = 0`, a void
synthetic return type and leaves the statement sequence of the block as it
was. -/
theorem foreign_complex_returns (DtoType : DType → LLType) (targetTriple : Triple)
    (gIR : IRState) (asmblock : IRAsmBlock) (fdecl : AbiFuncDecl)
    (ha : targetTriple.arch = .x86)
    (hl : fdecl.linkage = .LINKc ∨ fdecl.linkage = .LINKwindows) :
    (fdecl.retBaseType.isComplexOfKind .Tcomplex32 = true →
      emitABIReturnAsmStmt DtoType targetTriple gIR asmblock fdecl
        = .ok { s := { IRAsmStmt.new with out_c := "=A," } :: asmblock.s
                retty := LLType.i64
                retn := 1
                retemu := asmblock.retemu })
    ∧ ((fdecl.retBaseType.isComplexOfKind .Tcomplex64 = true
          ∨ fdecl.retBaseType.isComplexOfKind .Tcomplex80 = true) →
      emitABIReturnAsmStmt DtoType targetTriple gIR asmblock fdecl
        = .ok { s := asmblock.s
                retty := LLType.void
                retn := 0
                retemu := asmblock.retemu }) := by
  constructor
  · intro hrt
    obtain ⟨hty, hi, hf, hc⟩ := complexOfKind_facts _ _ hrt
    unfold emitABIReturnAsmStmt
    rcases hl with hl | hl <;>
      simp [ha, hl, hi, hf, hc, hty, IRAsmBlock.push_front]
  · intro hrt
    unfold emitABIReturnAsmStmt
    rcases hrt with hrt | hrt <;>
      obtain ⟨hty, hi, hf, hc⟩ := complexOfKind_facts _ _ hrt <;>
      rcases hl with hl | hl <;>
      simp [ha, hl, hi, hf, hc, hty]

theorem foreign_complex_returns_witness :
    emitABIReturnAsmStmt (fun _ => LLType.aggregate "cdouble") ⟨.Linux, .x86⟩
        ⟨"", [], [], [], []⟩ ⟨[⟨"nop", "", "", [], []⟩], .aggregate "none", 7, false⟩
        ⟨"foo", .LINKc, ⟨.Tcomplex64, false, true, true, 16, "cdouble", true⟩,
          ⟨.Tcomplex64, false, true, true, 16, "cdouble", true⟩⟩
      = .ok ⟨[⟨"nop", "", "", [], []⟩], .void, 0, false⟩ :=
  (foreign_complex_returns (fun _ => LLType.aggregate "cdouble") ⟨.Linux, .x86⟩
    ⟨"", [], [], [], []⟩ ⟨[⟨"nop", "", "", [], []⟩], .aggregate "none", 7, false⟩
    ⟨"foo", .LINKc, ⟨.Tcomplex64, false, true, true, 16, "cdouble", true⟩,
      ⟨.Tcomplex64, false, true, true, 16, "cdouble", true⟩⟩
    rfl (Or.inl rfl)).2 (Or.inl (by decide))

/-- C16 as stated fails: on x86_64, for a D-linkage function returning
`cfloat`, the operands are the pair `={xmm0},={xmm1},`, not the
floating-point-stack pair. -/
theorem native_cfloat_x86_64_uses_xmm :
    emitABIReturnAsmStmt (fun _ => LLType.aggregate "cfloat") ⟨.Linux, .x86_64⟩
        ⟨"", [], [], [], []⟩ ⟨[], .aggregate "none", 7, false⟩
        ⟨"foo", .LINKd, ⟨.Tcomplex32, false, true, true, 8, "cfloat", true⟩,
          ⟨.Tcomplex32, false, true, true, 8, "cfloat", true⟩⟩
      = .ok ⟨[⟨"", "=\x7bxmm0\x7d,=\x7bxmm1\x7d,", "", [], []⟩],
              .aggregate "cfloat", 2, false⟩
    ∧ ¬ ∃ b, emitABIReturnAsmStmt (fun _ => LLType.aggregate "cfloat") ⟨.Linux, .x86_64⟩
        ⟨"", [], [], [], []⟩ ⟨[], .aggregate "none", 7, false⟩
        ⟨"foo", .LINKd, ⟨.Tcomplex32, false, true, true, 8, "cfloat", true⟩,
          ⟨.Tcomplex32, false, true, true, 8, "cfloat", true⟩⟩ = .ok b
        ∧ b.s = [{ IRAsmStmt.new with out_c := "=\x7bst\x7d,=\x7bst(1)\x7d," }] := by
  have h : emitABIReturnAsmStmt (fun _ => LLType.aggregate "cfloat") ⟨.Linux, .x86_64⟩
        ⟨"", [], [], [], []⟩ ⟨[], .aggregate "none", 7, false⟩
        ⟨"foo", .LINKd, ⟨.Tcomplex32, false, true, true, 8, "cfloat", true⟩,
          ⟨.Tcomplex32, false, true, true, 8, "cfloat", true⟩⟩
      = .ok ⟨[⟨"", "=\x7bxmm0\x7d,=\x7bxmm1\x7d,", "", [], []⟩],
              .aggregate "cfloat", 2, false⟩ := by decide
  refine ⟨h, ?_⟩
  rintro ⟨b, hb, hs⟩
  rw [h] at hb
  injection hb with hb
  rw [← hb] at hs
  revert hs
  decide

/-- C16 (amended): for a complex return base type (`cfloat`, `cdouble`,
`creal`) of a function with D linkage, `emitABIReturnAsmStmt` yields two
return operands on both architectures; on x86 they are the
floating-point-stack pair `={st},={st(1)},` for every width; on x86_64 they
are that pair for `creal` (the type object `Type::tcomplex80`) and the pair
`={xmm0},={xmm1},` for `cfloat` and `cdouble`. -/
theorem native_complex_returns (DtoType : DType → LLType) (targetTriple : Triple)
    (gIR : IRState) (asmblock : IRAsmBlock) (fdecl : AbiFuncDecl) (k : TY)
    (hl : fdecl.linkage = .LINKd)
    (hrt : fdecl.retBaseType.isComplexOfKind k = true) :
    (targetTriple.arch = .x86 →
      emitABIReturnAsmStmt DtoType targetTriple gIR asmblock fdecl
        = .ok { s := { IRAsmStmt.new with out_c := "=\x7bst\x7d,=\x7bst(1)\x7d," }
                      :: asmblock.s
                retty := DtoType fdecl.retType
                retn := 2
                retemu := asmblock.retemu })
    ∧ (targetTriple.arch = .x86_64 → k = .Tcomplex80 →
        fdecl.retBaseType.isBasicObject = true →
      emitABIReturnAsmStmt DtoType targetTriple gIR asmblock fdecl
        = .ok { s := { IRAsmStmt.new with out_c := "=\x7bst\x7d,=\x7bst(1)\x7d," }
                      :: asmblock.s
                retty := DtoType fdecl.retType
                retn := 2
                retemu := asmblock.retemu })
    ∧ (targetTriple.arch = .x86_64 → (k = .Tcomplex32 ∨ k = .Tcomplex64) →
      emitABIReturnAsmStmt DtoType targetTriple gIR asmblock fdecl
        = .ok { s := { IRAsmStmt.new with out_c := "=\x7bxmm0\x7d,=\x7bxmm1\x7d," }
                      :: asmblock.s
                retty := DtoType fdecl.retType
                retn := 2
                retemu := asmblock.retemu }) := by
  obtain ⟨hty, hi, hf, hc⟩ := complexOfKind_facts _ _ hrt
  have hne : (ArchType.x86_64 == ArchType.x86) = false := by decide
  refine ⟨?_, ?_, ?_⟩
  · intro ha
    have hk : k = .Tcomplex32 ∨ k = .Tcomplex64 ∨ k = .Tcomplex80 := by
      unfold DType.isComplexOfKind at hrt
      simp only [Bool.and_eq_true, beq_iff_eq, Bool.or_eq_true] at hrt
      rcases hrt.1.1.1.2 with (h | h) | h
      · exact Or.inl h
      · exact Or.inr (Or.inl h)
      · exact Or.inr (Or.inr h)
    unfold emitABIReturnAsmStmt
    rcases hk with hk | hk | hk <;>
      simp [ha, hl, hi, hf, hc, hty, hk, IRAsmBlock.push_front]
  · intro ha hk hb
    unfold emitABIReturnAsmStmt
    simp [ha, hne, hl, hi, hf, hc, hty, hk, hb, DType.isGlobal, IRAsmBlock.push_front]
  · intro ha hk
    unfold emitABIReturnAsmStmt
    rcases hk with hk | hk <;>
      simp [ha, hne, hl, hi, hf, hc, hty, hk, DType.isGlobal, IRAsmBlock.push_front]

theorem native_complex_returns_witness :
    emitABIReturnAsmStmt (fun _ => LLType.aggregate "creal") ⟨.Linux, .x86_64⟩
        ⟨"", [], [], [], []⟩ ⟨[⟨"nop", "", "", [], []⟩], .aggregate "none", 7, false⟩
        ⟨"foo", .LINKd, ⟨.Tcomplex80, false, true, true, 32, "creal", true⟩,
          ⟨.Tcomplex80, false, true, true, 32, "creal", true⟩⟩
      = .ok ⟨[⟨"", "=\x7bst\x7d,=\x7bst(1)\x7d,", "", [], []⟩, ⟨"nop", "", "", [], []⟩],
              .aggregate "creal", 2, false⟩ :=
  (native_complex_returns (fun _ => LLType.aggregate "creal") ⟨.Linux, .x86_64⟩
    ⟨"", [], [], [], []⟩ ⟨[⟨"nop", "", "", [], []⟩], .aggregate "none", 7, false⟩
    ⟨"foo", .LINKd, ⟨.Tcomplex80, false, true, true, 32, "creal", true⟩,
      ⟨.Tcomplex80, false, true, true, 32, "creal", true⟩⟩
    .Tcomplex80 rfl (by decide)).2.1 rfl rfl rfl

theorem containsText_middle (pre mid post : String) :
    containsText (pre ++ mid ++ post) mid := by
  refine ⟨pre.data, post.data, ?_⟩
  simp

/-- C17: for every architecture other than x86 and x86_64,
`emitABIReturnAsmStmt` reports a diagnostic and ends in `fatal()`; on x86
and x86_64 (linkage D, C or Windows), for a return base type that is not
integral, pointer, class reference, associative array, floating, dynamic
array or delegate it reports a diagnostic naming the type and ends in
`fatal()`, and for a type in one of those classes it returns a block. An
outcome `fatal` carries no block: no statement is inserted. -/
theorem no_silent_default (DtoType : DType → LLType) (targetTriple : Triple)
    (gIR : IRState) (asmblock : IRAsmBlock) (fdecl : AbiFuncDecl) :
    ((targetTriple.arch ≠ .x86 ∧ targetTriple.arch ≠ .x86_64) →
      emitABIReturnAsmStmt DtoType targetTriple gIR asmblock fdecl
        = .fatal (gIR.errors ++
            ["this target (" ++ targetTriple.str
              ++ ") does not implement inline asm falling off the end of the function"]))
    ∧ ((targetTriple.arch = .x86 ∨ targetTriple.arch = .x86_64) →
        fdecl.linkage.abiReturnLinkage = true →
        fdecl.retBaseType.abiReturnClass = false →
        emitABIReturnAsmStmt DtoType targetTriple gIR asmblock fdecl
          = .fatal (gIR.errors ++
              ["unimplemented return type \x27" ++ fdecl.retBaseType.toChars
                ++ "\x27 for implicit abi return"])
        ∧ containsText
            ("unimplemented return type \x27" ++ fdecl.retBaseType.toChars
              ++ "\x27 for implicit abi return")
            fdecl.retBaseType.toChars)
    ∧ ((targetTriple.arch = .x86 ∨ targetTriple.arch = .x86_64) →
        fdecl.linkage.abiReturnLinkage = true →
        fdecl.retBaseType.abiReturnClass = true →
        ∃ b, emitABIReturnAsmStmt DtoType targetTriple gIR asmblock fdecl = .ok b) := by
  have hne : (ArchType.x86_64 == ArchType.x86) = false := by decide
  refine ⟨?_, ?_, ?_⟩
  · rintro ⟨h1, h2⟩
    unfold emitABIReturnAsmStmt
    simp [h1, h2]
  · intro ha hl hc
    refine ⟨?_, containsText_middle _ _ _⟩
    unfold LINK.abiReturnLinkage at hl
    unfold DType.abiReturnClass DType.integralLike at hc
    simp only [Bool.or_eq_false_iff] at hc
    obtain ⟨⟨⟨⟨⟨⟨h1, h2⟩, h3⟩, h4⟩, h5⟩, h6⟩, h7⟩ := hc
    unfold emitABIReturnAsmStmt
    rcases ha with ha | ha <;>
      simp only [ha, hne, hl, h1, h2, h3, h4, h5, h6, h7, beq_self_eq_true, Bool.not_true,
        Bool.false_eq_true, if_false, if_true, Bool.or_self]
  · intro ha hl hc
    unfold LINK.abiReturnLinkage at hl
    unfold DType.abiReturnClass DType.integralLike at hc
    unfold emitABIReturnAsmStmt
    rcases ha with ha | ha
    · simp only [ha, hl, beq_self_eq_true, Bool.not_true, Bool.false_eq_true, if_false,
        if_true]
      split_ifs <;> first
        | exact ⟨_, rfl⟩
        | (exfalso; simp_all)
    · simp only [ha, hne, hl, beq_self_eq_true, Bool.not_true, Bool.false_eq_true,
        if_false, if_true]
      split_ifs <;> first
        | exact ⟨_, rfl⟩
        | (exfalso; simp_all)

theorem no_silent_default_witness :
    emitABIReturnAsmStmt (fun _ => LLType.aggregate "S") ⟨.Linux, .x86_64⟩
        ⟨"", [], [], [], []⟩ ⟨[], .aggregate "none", 7, false⟩
        ⟨"foo", .LINKd, ⟨.Tstruct, false, false, false, 24, "S", false⟩,
          ⟨.Tstruct, false, false, false, 24, "S", false⟩⟩
      = .fatal ["unimplemented return type \x27S\x27 for implicit abi return"]
    ∧ emitABIReturnAsmStmt (fun _ => LLType.i32) ⟨.Linux, .arm⟩
        ⟨"", [], [], [], []⟩ ⟨[], .aggregate "none", 7, false⟩
        ⟨"foo", .LINKd, ⟨.Tint32, true, false, false, 4, "int", true⟩,
          ⟨.Tint32, true, false, false, 4, "int", true⟩⟩
      = .fatal ["this target (arm-linux) does not implement inline asm falling off the end of the function"] :=
  ⟨(((no_silent_default (fun _ => LLType.aggregate "S") ⟨.Linux, .x86_64⟩
        ⟨"", [], [], [], []⟩ ⟨[], .aggregate "none", 7, false⟩
        ⟨"foo", .LINKd, ⟨.Tstruct, false, false, false, 24, "S", false⟩,
          ⟨.Tstruct, false, false, false, 24, "S", false⟩⟩).2.1
      (Or.inr rfl) (by decide) (by decide)).1).trans (by decide),
   ((no_silent_default (fun _ => LLType.i32) ⟨.Linux, .arm⟩
        ⟨"", [], [], [], []⟩ ⟨[], .aggregate "none", 7, false⟩
        ⟨"foo", .LINKd, ⟨.Tint32, true, false, false, 4, "int", true⟩,
          ⟨.Tint32, true, false, false, 4, "int", true⟩⟩).1
      ⟨by decide, by decide⟩).trans (by decide)⟩

/-- C20: whenever `emitABIReturnAsmStmt` returns, for every architecture,
linkage and return type and whatever statements the block held, either no
statement was synthesized, the sequence is unchanged and `retn` is 0, or one
statement was put in front of the old sequence and `retn` is the number of
output constraints in its output-constraint string. -/
theorem retn_counts_constraints (DtoType : DType → LLType) (targetTriple : Triple)
    (gIR : IRState) (asmblock b : IRAsmBlock) (fdecl : AbiFuncDecl)
    (h : emitABIReturnAsmStmt DtoType targetTriple gIR asmblock fdecl = .ok b) :
    (b.s = asmblock.s ∧ b.retn = 0)
    ∨ (∃ stmt, b.s = stmt :: asmblock.s
        ∧ b.retn = countOutputConstraints stmt.out_c) := by
  unfold emitABIReturnAsmStmt at h
  dsimp only at h
  repeat' split at h
  all_goals (try (injection h with h; subst h))
  all_goals (try (exact Or.inl ⟨rfl, rfl⟩))
  all_goals (try (exact Or.inr ⟨_, rfl, rfl⟩))
  all_goals cases h

theorem retn_counts_constraints_witness :
    (([⟨"", "=\x7bax\x7d,=\x7bdx\x7d,", "", [], []⟩, ⟨"nop", "", "", [], []⟩] : List IRAsmStmt)
        = [⟨"nop", "", "", [], []⟩] ∧ (2 : Nat) = 0)
    ∨ (∃ stmt : IRAsmStmt,
        ([⟨"", "=\x7bax\x7d,=\x7bdx\x7d,", "", [], []⟩, ⟨"nop", "", "", [], []⟩] : List IRAsmStmt)
          = stmt :: [⟨"nop", "", "", [], []⟩]
        ∧ (2 : Nat) = countOutputConstraints stmt.out_c) :=
  retn_counts_constraints (fun _ => LLType.aggregate "int[]") ⟨.Linux, .x86_64⟩
    ⟨"", [], [], [], []⟩ ⟨[⟨"nop", "", "", [], []⟩], .aggregate "none", 7, false⟩
    ⟨[⟨"", "=\x7bax\x7d,=\x7bdx\x7d,", "", [], []⟩, ⟨"nop", "", "", [], []⟩],
      .aggregate "int[]", 2, false⟩
    ⟨"foo", .LINKd, ⟨.Tarray, false, false, false, 16, "int[]", false⟩,
      ⟨.Tarray, false, false, false, 16, "int[]", false⟩⟩
    (by decide)

/-- C18: for a call with at least the two leading arguments (and a template
instance as parent of the intrinsic), `DtoInlineAsmExpr` reports a diagnostic
and ends in `fatal()` exactly when the first or the second argument is not a
string literal of one-byte characters; otherwise the operands of the call are
the values of the arguments from the third on, in order (two fewer than the
arguments), the parameter types are the types of those operands in the same
order, the texts are those of the two literals, and the side-effect flag is
set. -/
theorem inline_asm_call {Val : Type} (DtoType : DType → LLType) (typeOf : Val → LLType)
    (gIR : IRState) (fd : AsmIntrinsicDecl) (e0 e1 : AsmArg Val) (rest : List (AsmArg Val))
    (hti : fd.parentIsTemplateInstance = true) :
    ((∃ msg, DtoInlineAsmExpr DtoType typeOf gIR fd (e0 :: e1 :: rest)
              = .fatal (gIR.errors ++ [msg])
            ∧ containsText msg "not a char[] string literal")
        ↔ (e0.isCharLiteral = false ∨ e1.isCharLiteral = false))
    ∧ ((∃ d, DtoInlineAsmExpr DtoType typeOf gIR fd (e0 :: e1 :: rest) = .fatal d)
        ↔ (e0.isCharLiteral = false ∨ e1.isCharLiteral = false))
    ∧ ((e0.isCharLiteral = true ∧ e1.isCharLiteral = true) →
        ∃ r, DtoInlineAsmExpr DtoType typeOf gIR fd (e0 :: e1 :: rest) = .ok r
          ∧ r.call.args = rest.map AsmArg.rval
          ∧ r.call.args.length = (e0 :: e1 :: rest).length - 2
          ∧ r.call.argtypes = r.call.args.map typeOf
          ∧ r.call.code = e0.text ∧ r.call.constraints = e1.text
          ∧ r.call.sideeffect = true) := by
  have hok : (e0.isCharLiteral = true ∧ e1.isCharLiteral = true) →
      ∃ r, DtoInlineAsmExpr DtoType typeOf gIR fd (e0 :: e1 :: rest) = .ok r
        ∧ r.call.args = rest.map AsmArg.rval
        ∧ r.call.args.length = (e0 :: e1 :: rest).length - 2
        ∧ r.call.argtypes = r.call.args.map typeOf
        ∧ r.call.code = e0.text ∧ r.call.constraints = e1.text
        ∧ r.call.sideeffect = true := by
    rintro ⟨h0, h1⟩
    unfold DtoInlineAsmExpr
    simp only [hti, h0, h1, Bool.not_true, Bool.false_eq_true, if_false]
    by_cases hs : (fd.retBaseType.ty == TY.Tstruct) = true
    · rw [if_pos hs]
      exact ⟨_, rfl, rfl, by simp [AsmExprValue.call], rfl, rfl, rfl, rfl⟩
    · rw [if_neg hs]
      exact ⟨_, rfl, rfl, by simp [AsmExprValue.call], rfl, rfl, rfl, rfl⟩
  have hfail : (e0.isCharLiteral = false ∨ e1.isCharLiteral = false) →
      ∃ msg, DtoInlineAsmExpr DtoType typeOf gIR fd (e0 :: e1 :: rest)
              = .fatal (gIR.errors ++ [msg])
            ∧ containsText msg "not a char[] string literal" := by
    intro h
    unfold DtoInlineAsmExpr
    cases h0 : e0.isCharLiteral with
    | false =>
      refine ⟨"__asm code argument is not a char[] string literal", ?_, ?_⟩
      · simp [hti, h0]
      · exact containsText_tail "__asm code argument is " "not a char[] string literal"
    | true =>
      have h1 : e1.isCharLiteral = false := by
        rcases h with h | h
        · rw [h0] at h
          cases h
        · exact h
      refine ⟨"__asm constraints argument is not a char[] string literal", ?_, ?_⟩
      · simp [hti, h0, h1]
      · exact containsText_tail "__asm constraints argument is "
          "not a char[] string literal"
  have hconv : (∃ d, DtoInlineAsmExpr DtoType typeOf gIR fd (e0 :: e1 :: rest) = .fatal d) →
      (e0.isCharLiteral = false ∨ e1.isCharLiteral = false) := by
    rintro ⟨d, hd⟩
    by_contra hcon
    simp only [not_or, Bool.not_eq_false] at hcon
    obtain ⟨r, hr, -⟩ := hok hcon
    rw [hr] at hd
    cases hd
  refine ⟨⟨?_, hfail⟩, ⟨hconv, ?_⟩, hok⟩
  · rintro ⟨msg, hm, -⟩
    exact hconv ⟨_, hm⟩
  · intro h
    obtain ⟨msg, hm, -⟩ := hfail h
    exact ⟨_, hm⟩

theorem inline_asm_call_witness :
    ∃ r, DtoInlineAsmExpr (fun _ => LLType.void) (fun _ : Nat => LLType.i32)
          ⟨"", [], [], [], []⟩
          ⟨true, ⟨.Tvoid, false, false, false, 1, "void", true⟩, 0⟩
          [.StringExp 1 "nop" 0, .StringExp 1 "" 1] = .ok r
      ∧ r.call.args = [] ∧ r.call.sideeffect = true := by
  obtain ⟨r, h1, h2, -, -, -, -, h3⟩ :=
    (inline_asm_call (fun _ => LLType.void) (fun _ : Nat => LLType.i32)
      ⟨"", [], [], [], []⟩ ⟨true, ⟨.Tvoid, false, false, false, 1, "void", true⟩, 0⟩
      (.StringExp 1 "nop" 0) (.StringExp 1 "" 1) [] rfl).2.2 ⟨rfl, rfl⟩
  exact ⟨r, h1, h2, h3⟩

/-- C19 as stated fails: the slot built for the by-value pointer type `int*`
has its by-reference flag unset and yet a lowered type that is a pointer. -/
theorem byvalue_pointer_slot :
    (IrFuncTyArg.construct SemType.DtoType SemType.pointerTo
        (SemType.pointer (.basic .Tint32)) false 0 : IrFuncTyArg SemType LLType Nat).byref
      = false
    ∧ (IrFuncTyArg.construct SemType.DtoType SemType.pointerTo
        (SemType.pointer (.basic .Tint32)) false 0 : IrFuncTyArg SemType LLType Nat).ltype
      = LLType.pointer .i32
    ∧ (IrFuncTyArg.construct SemType.DtoType SemType.pointerTo
        (SemType.pointer (.basic .Tint32)) false 0
          : IrFuncTyArg SemType LLType Nat).ltype.isPointerTy
      = true := by
  decide

/-- C19 (amended): the slot built by `IrFuncTyArg(t, bref, a)` keeps `type = t`,
`attrs = a` and `byref = bref` and has no rewrite; its lowered type is the
lowering of pointer-to-`t`, a pointer, when the by-reference flag is set, and
the canonical lowering of `t` when it is not; so the lowered type is a
pointer exactly when the flag is set or `t` itself lowers to a pointer. -/
theorem argslot_construct {D V : Type} (DtoType : D → LLType) (pointerTo : D → D)
    (hp : ∀ t, (DtoType (pointerTo t)).isPointerTy = true)
    (t : D) (bref : Bool) (a : Nat) :
    (IrFuncTyArg.construct DtoType pointerTo t bref a : IrFuncTyArg D LLType V).type = t
    ∧ (IrFuncTyArg.construct DtoType pointerTo t bref a : IrFuncTyArg D LLType V).attrs = a
    ∧ (IrFuncTyArg.construct DtoType pointerTo t bref a : IrFuncTyArg D LLType V).byref = bref
    ∧ (IrFuncTyArg.construct DtoType pointerTo t bref a
          : IrFuncTyArg D LLType V).rewrite.isNone = true
    ∧ (IrFuncTyArg.construct DtoType pointerTo t bref a : IrFuncTyArg D LLType V).ltype
        = (if bref = true then DtoType (pointerTo t) else DtoType t)
    ∧ (bref = true →
        (IrFuncTyArg.construct DtoType pointerTo t bref a
          : IrFuncTyArg D LLType V).ltype.isPointerTy = true)
    ∧ ((IrFuncTyArg.construct DtoType pointerTo t bref a
          : IrFuncTyArg D LLType V).ltype.isPointerTy = true
        ↔ (bref = true ∨ (DtoType t).isPointerTy = true)) := by
  refine ⟨rfl, rfl, rfl, rfl, rfl, ?_, ?_⟩
  · intro hb
    simp [IrFuncTyArg.construct, hb, hp]
  · cases bref
    · simp [IrFuncTyArg.construct]
    · simp [IrFuncTyArg.construct, hp]

theorem argslot_construct_witness :
    (IrFuncTyArg.construct SemType.DtoType SemType.pointerTo
        (SemType.basic .Tint32) true 5 : IrFuncTyArg SemType LLType Nat).ltype
      = LLType.pointer .i32 :=
  ((argslot_construct (V := Nat) SemType.DtoType SemType.pointerTo (fun _ => rfl)
      (SemType.basic .Tint32) true 5).2.2.2.2.1).trans (by decide)

/-- C21: whenever `emitABIReturnAsmStmt` returns with `retn > 0`, the statement
sequence of the block is the synthesized implicit-return statement (empty
code and inputs, a non-empty output-constraint string) followed by the old
sequence, unchanged and in the same order: the statement is the head of the
new sequence and the old sequence is its tail. -/
theorem front_insertion (DtoType : DType → LLType) (targetTriple : Triple)
    (gIR : IRState) (asmblock b : IRAsmBlock) (fdecl : AbiFuncDecl)
    (h : emitABIReturnAsmStmt DtoType targetTriple gIR asmblock fdecl = .ok b)
    (hn : 0 < b.retn) :
    ∃ stmt, b.s = stmt :: asmblock.s
      ∧ b.s.head? = some stmt ∧ b.s.tail = asmblock.s
      ∧ stmt = { IRAsmStmt.new with out_c := stmt.out_c }
      ∧ stmt.out_c ≠ "" := by
  unfold emitABIReturnAsmStmt at h
  dsimp only at h
  repeat' split at h
  all_goals (try (injection h with h; subst h))
  all_goals (try (exact absurd hn (Nat.lt_irrefl 0)))
  all_goals (try (refine ⟨_, rfl, rfl, rfl, rfl, ?_⟩; decide))
  all_goals cases h

theorem front_insertion_witness :
    ∃ stmt : IRAsmStmt,
      ([⟨"", "=\x7bst\x7d,", "", [], []⟩, ⟨"fld1", "", "", [], []⟩, ⟨"nop", "", "", [], []⟩]
          : List IRAsmStmt)
        = stmt :: [⟨"fld1", "", "", [], []⟩, ⟨"nop", "", "", [], []⟩]
      ∧ stmt.out_c = "=\x7bst\x7d," := by
  obtain ⟨stmt, h1, -, -, -, -⟩ := front_insertion (fun _ => LLType.float) ⟨.Linux, .x86⟩
    ⟨"", [], [], [], []⟩
    ⟨[⟨"fld1", "", "", [], []⟩, ⟨"nop", "", "", [], []⟩], .aggregate "none", 7, false⟩
    ⟨[⟨"", "=\x7bst\x7d,", "", [], []⟩, ⟨"fld1", "", "", [], []⟩, ⟨"nop", "", "", [], []⟩],
      .float, 1, false⟩
    ⟨"foo", .LINKd, ⟨.Tfloat32, false, true, false, 4, "float", true⟩,
      ⟨.Tfloat32, false, true, false, 4, "float", true⟩⟩
    (by decide) (by decide)
  refine ⟨stmt, h1, ?_⟩
  injection h1 with h1 _
  rw [← h1]

end LDC
